import Mathlib

/-!
Verification of the interactive annotation/scoring engine of the
`pdf_corrections` repository, as a shallow embedding in Lean 4.

Conventions of the embedding:
* Python floats are modelled as rationals (`ℚ`); all annotation
  coordinates, points values and rubric values live in `ℚ`.
* Python dicts used as records become Lean structures whose fields carry
  the dict's default values (matching `d.get(key, default)`).
* Python dicts used as mutable string-keyed maps (`sum_by_ex`,
  `max_by_ex`, ...) become insertion-ordered association lists with the
  update semantics of a Python `dict` (update in place when the key is
  present, append otherwise).
* Functions that `raise` are modelled with `Except String`.
-/

namespace PdfCorr

/-! ## Python string primitives

Lean's own `String.splitOn`/`trim`/`startsWith` are compiled with
well-founded recursion and do not reduce inside the kernel, so the
Python string operations the source uses are modelled by transparent
structural recursions over the character list. -/

/-- Worker for `pySplitDot`. -/
def splitDotAux : List Char → List Char → List String
  | [], acc => [String.mk acc.reverse]
  | c :: rest, acc =>
    if c = '.' then String.mk acc.reverse :: splitDotAux rest []
    else splitDotAux rest (c :: acc)

/-- Python `s.split('.')` (and `s.split('.', 1)[0]` is its head). -/
def pySplitDot (s : String) : List String := splitDotAux s.data []

/-- Python `s.strip()` (ASCII whitespace suffices for the codes the
program manipulates). -/
def pyStrip (s : String) : String :=
  String.mk (((s.data.dropWhile Char.isWhitespace).reverse.dropWhile Char.isWhitespace).reverse)

/-- Python `s.startswith(pfx)`. -/
def pyStartsWith (s pfx : String) : Bool := pfx.data.isPrefixOf s.data

/-- Digit-string value, `none` on the empty string or a non-digit. -/
def digitsToNat : List Char → Option Nat
  | [] => none
  | ds =>
    ds.foldl (fun acc c =>
      match acc with
      | none => none
      | some n => if c.isDigit then some (n * 10 + (c.toNat - 48)) else none) (some 0)

/-- Python `int(s)` as an option (`None` standing for the `ValueError`
the source catches and skips); sign prefix plus digits. -/
def pyToInt? (s : String) : Option Int :=
  match s.data with
  | [] => none
  | '-' :: ds => (digitsToNat ds).map (fun n => -(n : Int))
  | '+' :: ds => (digitsToNat ds).map (fun n => (n : Int))
  | ds => (digitsToNat ds).map (fun n => (n : Int))

/-! ## Grading scheme (`src/app/core/grading.py`) -/

/-- `Rubric` dataclass: three point values with defaults
`good=1.0, partial=0.5, bad=0.0` (the middle field is called
`partial` in the source; that word is a Lean keyword, hence
`partialPts` here). -/
structure Rubric where
  good : ℚ := 1
  partialPts : ℚ := 1/2
  bad : ℚ := 0
deriving DecidableEq, Repr

/-- `Node` dataclass: a scheme node with a dotted code, a label, an
optional rubric and a list of children. -/
inductive Node where
  | mk (code : String) (label : String) (rubric : Option Rubric) (children : List Node)

/-- Projection: `node.code`. -/
def Node.code : Node → String
  | .mk c _ _ _ => c

/-- Projection: `node.label`. -/
def Node.label : Node → String
  | .mk _ l _ _ => l

/-- Projection: `node.rubric`. -/
def Node.rubric : Node → Option Rubric
  | .mk _ _ r _ => r

/-- Projection: `node.children`. -/
def Node.children : Node → List Node
  | .mk _ _ _ ch => ch

/-- `Node.level`: `max(0, len(code.split('.')) - 1)`; `splitOn` never
returns `[]`, so truncated `Nat` subtraction models the `max(0, ·)`. -/
def Node.level (n : Node) : Nat := (pySplitDot n.code).length - 1

/-- `Scheme` dataclass: an ordered list of top-level exercise nodes. -/
structure Scheme where
  exercises : List Node

mutual

/-- `find_node`'s DFS over one node: the node itself when its `code`
matches, otherwise a search of its children.  (The Python function
also returns the parent; no claim uses it, so the embedding returns
the node alone.) -/
def find_in_node : Node → String → Option Node
  | Node.mk c l r ch, code =>
    if c = code then some (Node.mk c l r ch) else find_in_list ch code

/-- `find_node`'s DFS over a node list: first match, descending into a
node's children before moving to its siblings. -/
def find_in_list : List Node → String → Option Node
  | [], _ => none
  | n :: rest, code =>
    match find_in_node n code with
    | some x => some x
    | none => find_in_list rest code

end

/-- `find_node(scheme, code)`. -/
def find_node (s : Scheme) (code : String) : Option Node :=
  find_in_list s.exercises code

/-- `points_for(scheme, leaf_code, result)`: resolve the leaf, default
to `Rubric()` when the node has no rubric, and pick the value matching
`result` (anything other than `"good"`/`"partial"` falls through to
`bad`); an unresolved code yields `0.0`. -/
def points_for (s : Scheme) (leaf_code result : String) : ℚ :=
  match find_node s leaf_code with
  | none => 0
  | some n =>
    let rub := n.rubric.getD {}
    if result = "good" then rub.good
    else if result = "partial" then rub.partialPts
    else rub.bad

/-- `_next_child_index(parent)`: scan children whose code starts with
`parent.code + "."`, parse the second dotted segment as an integer
(parse failures are skipped), and return max+1, or 1 when none. -/
def next_child_index (p : Node) : Int :=
  let pfx := p.code ++ "."
  let idxs := p.children.filterMap (fun c =>
    if pyStartsWith c.code pfx then ((pySplitDot c.code)[1]?).bind pyToInt?
    else none)
  match idxs.max? with
  | some m => m + 1
  | none => 1

/-- The index scan inside `add_subsublevel`: same shape as
`_next_child_index` but parsing the third dotted segment. -/
def next_subsub_index (p : Node) : Int :=
  let pfx := p.code ++ "."
  let idxs := p.children.filterMap (fun c =>
    if pyStartsWith c.code pfx then ((pySplitDot c.code)[2]?).bind pyToInt?
    else none)
  match idxs.max? with
  | some m => m + 1
  | none => 1

mutual

/-- Replace, inside one node, the first DFS occurrence of the node with
the given code by `nw`.  Models the in-place mutation of the node that
`find_node` returned. -/
def replace_in_node : Node → String → Node → Node
  | Node.mk c l r ch, code, nw =>
    if c = code then nw else Node.mk c l r (replace_in_list ch code nw)

/-- Replace the first DFS occurrence (the traversal order of
`find_in_list`) of the node with the given code by `nw`. -/
def replace_in_list : List Node → String → Node → List Node
  | [], _, _ => []
  | n :: rest, code, nw =>
    match find_in_node n code with
    | some _ => replace_in_node n code nw :: rest
    | none => n :: replace_in_list rest code nw

end

/-- `add_sublevel(scheme, exercise_code)`: requires the code to resolve
to a level-0 node, then appends a fresh child `code.idx` carrying a
default `Rubric()`.  Note: the source does not touch the exercise's own
`rubric` field here. -/
def add_sublevel (s : Scheme) (exercise_code : String) :
    Except String (Scheme × String) :=
  match find_node s exercise_code with
  | none => .error "Exercice introuvable."
  | some ex =>
    if ex.level ≠ 0 then .error "Sélectionne un exercice (niveau 0)."
    else
      let idx := next_child_index ex
      let code := ex.code ++ "." ++ toString idx
      let ex2 := Node.mk ex.code ex.label ex.rubric
        (ex.children ++ [Node.mk code ("Ex " ++ code) (some {}) []])
      .ok (⟨replace_in_list s.exercises exercise_code ex2⟩, code)

/-- `add_subsublevel(scheme, sublevel_code)`: requires a level-1 node,
sets its `rubric` to `None` ("rubric = sum of children from that point
on"), and appends a fresh child `code.idx` with a default rubric. -/
def add_subsublevel (s : Scheme) (sublevel_code : String) :
    Except String (Scheme × String) :=
  match find_node s sublevel_code with
  | none => .error "Niveau introuvable."
  | some node =>
    if node.level ≠ 1 then .error "Sélectionne un sous-niveau (niveau 1)."
    else
      let idx := next_subsub_index node
      let code := node.code ++ "." ++ toString idx
      let n2 := Node.mk node.code node.label none
        (node.children ++ [Node.mk code ("Ex " ++ code) (some {}) []])
      .ok (⟨replace_in_list s.exercises sublevel_code n2⟩, code)

/-! ## Annotation model (`src/app/ui/app_window.py`)

Annotations are Python dicts keyed by `kind`.  The embedding is one
flat structure whose fields default to the values that `dict.get`
supplies in the source; fields irrelevant to a given kind are simply
unused, as unread dict keys are.  The dict key `"points"` holds a
score value for the circle kinds and the polyline for `"ink"`; the
typed embedding separates the two into `points` and `ink`. -/

structure Ann where
  id : String := ""
  kind : String := ""
  page : Int := -1
  x_pt : ℚ := 0
  y_pt : ℚ := 0
  exercise_code : String := ""
  points : ℚ := 0
  radius_pt : ℚ := 9
  width_pt : ℚ := 3
  rect : List ℚ := []
  ink : List (ℚ × ℚ) := []
  arrowStart : List ℚ := []
  arrowEnd : List ℚ := []
  payloadTag : String := ""
deriving DecidableEq, Repr

/-- The top-level-exercise key the aggregators derive from an
`exercise_code`: `code = str(...).strip()`, then
`code.split('.', 1)[0]` (empty codes are handled at each use site). -/
def topKey (s : String) : String := (pySplitDot (pyStrip s)).headD ""

/-! ### Python-dict association lists -/

/-- String-keyed float dict, insertion ordered. -/
abbrev StrMap := List (String × ℚ)

/-- `d.get(k, dflt)`: value at the first (only) occurrence of `k`. -/
def pyGet (d : StrMap) (k : String) (dflt : ℚ) : ℚ :=
  match d with
  | [] => dflt
  | kv :: rest => if kv.1 = k then kv.2 else pyGet rest k dflt

/-- `k in d`. -/
def pyMem (d : StrMap) (k : String) : Bool :=
  match d with
  | [] => false
  | kv :: rest => kv.1 = k || pyMem rest k

/-- `d[k] = v`: update in place when the key is present (keeping its
position, as a Python dict does), append otherwise. -/
def pySet (d : StrMap) (k : String) (v : ℚ) : StrMap :=
  match d with
  | [] => [(k, v)]
  | kv :: rest => if kv.1 = k then (k, v) :: rest else kv :: pySet rest k v

/-- Keys of a dict, in insertion order. -/
def pyKeys (d : StrMap) : List String := d.map Prod.fst

/-- `sum(d.values())`. -/
def pyValuesSum (d : StrMap) : ℚ := (d.map Prod.snd).sum

/-! ### `AppWindow._doc_attrib_total` (lines 4321–4374) -/

/-- One iteration of the annotation loop of `_doc_attrib_total`:
`score_circle` accumulates into `sum_by_ex` under the top-level key,
`manual_score` overwrites `manual_by_ex`; empty (stripped) exercise
codes are skipped; other kinds are ignored. -/
def attrib_step (st : StrMap × StrMap) (a : Ann) : StrMap × StrMap :=
  if a.kind = "score_circle" then
    let code := pyStrip a.exercise_code
    if code = "" then st
    else
      let ex := (pySplitDot code).headD ""
      (pySet st.1 ex (pyGet st.1 ex 0 + a.points), st.2)
  else if a.kind = "manual_score" then
    let code := pyStrip a.exercise_code
    if code = "" then st
    else
      let ex := (pySplitDot code).headD ""
      (st.1, pySet st.2 ex a.points)
  else st

/-- `_doc_attrib_total`: fold the loop above over the document's
annotations, then sum over `set(sum_by_ex) | set(manual_by_ex)`,
manual values replacing the pastille sums.  Python iterates the key
set in unspecified order; ℚ-addition commutes, so the embedding sums
over the deduplicated concatenation of the two key lists. -/
def doc_attrib_total (anns : List Ann) : ℚ :=
  let st := anns.foldl attrib_step ([], [])
  let all_ex := (pyKeys st.1 ++ pyKeys st.2).dedup
  all_ex.foldl
    (fun t ex => if pyMem st.2 ex then t + pyGet st.2 ex 0 else t + pyGet st.1 ex 0) 0

/-! ### Specification-style views of the aggregation, used to state
the refinement claims about `_doc_attrib_total`. -/

/-- The aggregation key a `score_circle` annotation contributes to,
when any. -/
def circleCodeOf (a : Ann) : Option String :=
  if a.kind = "score_circle" then
    (if pyStrip a.exercise_code = "" then none else some (topKey a.exercise_code))
  else none

/-- The aggregation key a `manual_score` annotation overrides, when
any. -/
def manualCodeOf (a : Ann) : Option String :=
  if a.kind = "manual_score" then
    (if pyStrip a.exercise_code = "" then none else some (topKey a.exercise_code))
  else none

/-- Sum of the points of all `score_circle` annotations under one
top-level exercise key. -/
def circle_sum (anns : List Ann) (e : String) : ℚ :=
  ((anns.filter (fun a => circleCodeOf a = some e)).map Ann.points).sum

/-- The manual value in force for a top-level exercise key: the last
`manual_score` annotation for it, if any. -/
def last_manual (anns : List Ann) (e : String) : Option ℚ :=
  ((anns.filter (fun a => manualCodeOf a = some e)).getLast?).map Ann.points

/-- All top-level exercise keys touched by the annotation list. -/
def agg_keys (anns : List Ann) : List String :=
  (anns.filterMap circleCodeOf ++ anns.filterMap manualCodeOf).dedup

/-- Per-exercise contribution to the attributed total: the manual
value when one exists, else the pastille sum. -/
def attrib_contribution (anns : List Ann) (e : String) : ℚ :=
  match last_manual anns e with
  | some m => m
  | none => circle_sum anns e

/-! ### `AppWindow._build_final_note_text` aggregation core
(lines 4884–4957) and `_scheme_max_total` (lines 4304–4318) -/

mutual

/-- `total_good(node)`: sum over children when there are children;
otherwise the rubric's `good` value (default `1.0`) at levels 1 and 2,
and `0.0` elsewhere. -/
def total_good : Node → ℚ
  | Node.mk c _ r ch =>
    if !ch.isEmpty then total_good_list ch
    else if (pySplitDot c).length - 1 = 1 ∨ (pySplitDot c).length - 1 = 2 then
      match r with
      | some rub => rub.good
      | none => 1
    else 0

/-- Sum of `total_good` over a node list. -/
def total_good_list : List Node → ℚ
  | [] => 0
  | n :: rest => total_good n + total_good_list rest

end

/-- `max_by_ex[ex.code] = total_good(ex)` for each exercise, in
order (a Python dict, so a duplicated code keeps the last value). -/
def max_by_ex (s : Scheme) : StrMap :=
  s.exercises.foldl (fun d ex => pySet d ex.code (total_good ex)) []

/-- The pastille pass of `_build_final_note_text`: starting from
`{k: 0.0 for k in max_by_ex}`, add each `score_circle`'s points under
its top-level key — `attrib_by_ex.get(ex_code, 0.0) + pts` creates
keys that are not in the scheme. -/
def note_circle_pass (s : Scheme) (anns : List Ann) : StrMap :=
  let init := (max_by_ex s).map (fun kv => (kv.1, (0 : ℚ)))
  anns.foldl
    (fun d a =>
      if a.kind = "score_circle" then
        let code := pyStrip a.exercise_code
        if code = "" then d
        else
          let ex := (pySplitDot code).headD ""
          pySet d ex (pyGet d ex 0 + a.points)
      else d)
    init

/-- The manual pass of `_build_final_note_text`: a `manual_score`
whose top-level key is absent from `attrib_by_ex` is skipped
(`continue`), otherwise it overwrites the entry. -/
def note_attrib_by_ex (s : Scheme) (anns : List Ann) : StrMap :=
  anns.foldl
    (fun d a =>
      if a.kind = "manual_score" then
        let code := pyStrip a.exercise_code
        if code = "" then d
        else
          let ex := (pySplitDot code).headD ""
          if pyMem d ex then pySet d ex a.points else d
      else d)
    (note_circle_pass s anns)

/-- `attrib_total` of the final note: `sum(attrib_by_ex.values())`. -/
def note_attrib_total (s : Scheme) (anns : List Ann) : ℚ :=
  pyValuesSum (note_attrib_by_ex s anns)

/-- `max_total` of the final note: `sum(max_by_ex.values())`. -/
def note_max_total (s : Scheme) : ℚ := pyValuesSum (max_by_ex s)

/-! ## Coordinate mapping (`src/app/ui/widgets/pdf_viewer.py`,
`PDFViewer._canvas_to_pdf`, lines 464–499) -/

/-- One entry of `self._layout`. -/
structure PageInfo where
  page_index : Nat := 0
  x0 : ℚ := 0
  y0 : ℚ := 0
  w_px : ℚ := 0
  h_px : ℚ := 0
  w_pt : ℚ := 0
  h_pt : ℚ := 0
deriving DecidableEq, Repr

/-- The page-selection loop: starting from the last page, break at the
first page whose vertical span contains `cy`, or the first page whose
span starts below `cy`. -/
def select_page (layout : List PageInfo) (cy : ℚ) (dflt : PageInfo) : PageInfo :=
  (layout.find? (fun i =>
    decide ((i.y0 ≤ cy ∧ cy ≤ i.y0 + i.h_px) ∨ cy < i.y0))).getD dflt

/-- `_canvas_to_pdf(cx, cy)`: empty layout returns `(0, 0.0, 0.0)`;
otherwise select the page, subtract its origin, clamp to the pixel
box, divide by zoom, clamp to the point box. -/
def canvas_to_pdf (layout : List PageInfo) (zoom : ℚ) (cx cy : ℚ) :
    Nat × ℚ × ℚ :=
  match layout.getLast? with
  | none => (0, 0, 0)
  | some lastPg =>
    let pg := select_page layout cy lastPg
    let px_x := max 0 (min pg.w_px (cx - pg.x0))
    let px_y := max 0 (min pg.h_px (cy - pg.y0))
    let x_pt := max 0 (min pg.w_pt (px_x / zoom))
    let y_pt := max 0 (min pg.h_pt (px_y / zoom))
    (pg.page_index, x_pt, y_pt)

/-! ## Hit testing (`AppWindow._hit_test_ann`, circle branches,
lines 2282–2301)

`math.hypot` has no rational counterpart, so the embedding carries the
squared distance: the float test `hypot(dx, dy) <= r + 10.0` is
encoded by the equivalent rational test
`0 ≤ r + 10 ∧ dx² + dy² ≤ (r + 10)²`, and a reported hit carries
`dx² + dy²`, whose real square root is the distance the source
returns.  The claim theorems state the correspondence through
`Real.sqrt`. -/

/-- Circle hit test at center `(ax, ay)` with radius `r` against
pointer `(px, py)`. -/
def hit_test_circle (ax ay r px py : ℚ) : Option ℚ :=
  let dsq := (px - ax) ^ 2 + (py - ay) ^ 2
  if 0 ≤ r + 10 ∧ dsq ≤ (r + 10) ^ 2 then some dsq else none

/-- The `score_circle`/`manual_score` branches of `_hit_test_ann`:
`None` on a page mismatch, else the circle test at the annotation's
center and radius. -/
def hit_test_ann_circle (a : Ann) (page : Int) (px py : ℚ) : Option ℚ :=
  if a.page ≠ page then none
  else if a.kind = "score_circle" ∨ a.kind = "manual_score" then
    hit_test_circle a.x_pt a.y_pt a.radius_pt px py
  else none

/-! ## Selection drag (`AppWindow._on_pdf_drag`, move branch,
lines 2484–2561) -/

/-- The move-state armed at pointer-down: the dragged annotation's id,
the down-point anchor, and a deep copy of the annotation. -/
structure MoveState where
  annId : String
  anchor : ℚ × ℚ
  snapshot : Ann
  page : Int

/-- The per-kind geometry assignment of the move branch: every
geometry field of the live annotation `t` is recomputed from the
snapshot `orig` plus the delta; ill-shaped geometry leaves `t`
untouched, as the source's isinstance/length guards do.  `alignMargin`
models «Aligner dans la marge» being active in the Correction V0 tab:
it locks a circle's X to `marginX` instead of `orig.x_pt + dx`. -/
def drag_update (t orig : Ann) (dx dy : ℚ) (alignMargin : Bool) (marginX : ℚ) : Ann :=
  if orig.kind = "score_circle" ∨ orig.kind = "manual_score" then
    { t with x_pt := if alignMargin then marginX else orig.x_pt + dx,
             y_pt := orig.y_pt + dy }
  else if orig.kind = "textbox" then
    match orig.rect with
    | [x0, y0, x1, y1] => { t with rect := [x0 + dx, y0 + dy, x1 + dx, y1 + dy] }
    | _ => t
  else if orig.kind = "image" then
    match orig.rect with
    | [x0, y0, x1, y1] => { t with rect := [x0 + dx, y0 + dy, x1 + dx, y1 + dy] }
    | _ => t
  else if orig.kind = "arrow" then
    match orig.arrowStart, orig.arrowEnd with
    | [sx, sy], [ex, ey] =>
      { t with arrowStart := [sx + dx, sy + dy], arrowEnd := [ex + dx, ey + dy] }
    | _, _ => t
  else if orig.kind = "ink" then
    if orig.ink ≠ [] then { t with ink := orig.ink.map (fun p => (p.1 + dx, p.2 + dy)) }
    else t
  else t

/-- Apply `f` to the first annotation with the given id (the source
scans the list and mutates the first id match; a missing id is a
no-op). -/
def update_first_by_id (anns : List Ann) (i : String) (f : Ann → Ann) : List Ann :=
  match anns with
  | [] => []
  | a :: rest =>
    if a.id = i then f a :: rest else a :: update_first_by_id rest i f

/-- Pointer-move while `_draw_kind == "move"`: a page mismatch is a
no-op; otherwise `delta = currentPoint − anchor` and the target's
geometry is rewritten from the snapshot. -/
def on_pdf_drag_move (anns : List Ann) (st : MoveState)
    (alignMargin : Bool) (marginX : ℚ) (page : Int) (px py : ℚ) : List Ann :=
  if page ≠ st.page then anns
  else
    let dx := px - st.anchor.1
    let dy := py - st.anchor.2
    update_first_by_id anns st.annId
      (fun t => drag_update t st.snapshot dx dy alignMargin marginX)

/-- The geometry translation the spec describes, written from the
spec's words ("the live annotation's geometry is recomputed as
`snapshot.geometry + delta` for every point/rect/segment field of that
kind"); compared against the source-derived `drag_update` in the C6
theorem. -/
def spec_translated (a : Ann) (dx dy : ℚ) : Ann :=
  { a with
    x_pt := a.x_pt + dx
    y_pt := a.y_pt + dy
    rect := match a.rect with
      | [x0, y0, x1, y1] => [x0 + dx, y0 + dy, x1 + dx, y1 + dy]
      | r => r
    ink := a.ink.map (fun p => (p.1 + dx, p.2 + dy))
    arrowStart := match a.arrowStart with
      | [sx, sy] => [sx + dx, sy + dy]
      | s => s
    arrowEnd := match a.arrowEnd with
      | [ex, ey] => [ex + dx, ey + dy]
      | e => e }

/-! ## Draw commit (`AppWindow._on_pdf_release`, ink and arrow
branches, lines 2639–2678) -/

/-- The ink commit: the drawing is appended only when at least two
points were recorded (`len(self._draw_points) >= 2`); the style dict's
color is not modelled, no claim touches it. -/
def commit_ink (anns : List Ann) (page : Int) (pts : List (ℚ × ℚ))
    (newId : String) (width : ℚ) : List Ann :=
  if 2 ≤ pts.length then
    anns ++ [{ id := newId, kind := "ink", page := page, ink := pts,
               width_pt := width }]
  else anns

/-- The arrow commit: `e = self._draw_end or (x_pt, y_pt)` (the
release point stands in when no move was recorded as an endpoint), and
`if s and e:` — a present (tuple) start and end always pass this
truthiness test, so the arrow is appended whenever a draw was started,
degenerate or not. -/
def commit_arrow (anns : List Ann) (page : Int)
    (startP endP : Option (ℚ × ℚ)) (relx rely : ℚ)
    (newId : String) (width : ℚ) : List Ann :=
  let e := endP.getD (relx, rely)
  match startP with
  | none => anns
  | some s =>
    anns ++ [{ id := newId, kind := "arrow", page := page,
               arrowStart := [s.1, s.2], arrowEnd := [e.1, e.2],
               width_pt := width }]

/-! ## Regeneration scheduler (`AppWindow._schedule_regenerate`,
lines 2156–2194)

Single-threaded event-loop model: the state carries the pending
timer's delay (if armed), how many times `c_regenerate` has run, and
whether a project/document is active.  `timer_fire` is the `_run`
callback; its `interacting` input is the
`self._pdf_mouse_down or self._draw_kind` flag read. -/

structure RegenState where
  pending : Option Nat := none
  regenCount : Nat := 0
  hasDoc : Bool := true
deriving DecidableEq, Repr

/-- `_schedule_regenerate(delay_ms)`: cancel any pending timer, bail
out without a project/document, else arm a timer with delay
`max(20, delay_ms)`. -/
def schedule_regenerate (st : RegenState) (delay_ms : Nat) : RegenState :=
  let st1 : RegenState := { st with pending := none }
  if st1.hasDoc then { st1 with pending := some (max 20 delay_ms) }
  else st1

/-- The timer callback `_run`: clears the timer id, and either
reschedules with 120 ms when a pointer interaction is in progress, or
runs `c_regenerate`.  Firing with no timer armed cannot happen; it is
a no-op here. -/
def timer_fire (st : RegenState) (interacting : Bool) : RegenState :=
  match st.pending with
  | none => st
  | some _ =>
    let st1 : RegenState := { st with pending := none }
    if interacting then schedule_regenerate st1 120
    else { st1 with regenCount := st1.regenCount + 1 }

/-- A burst of timer firings, each observing the interaction flag of
its moment. -/
def fire_seq (st : RegenState) (bs : List Bool) : RegenState :=
  bs.foldl timer_fire st

/-! ## Manual-score insertion (`AppWindow._add_manual_score_at`,
replace-on-insert core, lines 2973–3011) -/

/-- The removal predicate: an existing `manual_score` whose
`exercise_code`'s top-level segment (`c.split('.', 1)[0] if c else ''`)
equals the chosen exercise code. -/
def is_manual_for (e : String) (a : Ann) : Bool :=
  a.kind = "manual_score" &&
    ((let c := pyStrip a.exercise_code
      if c = "" then "" else (pySplitDot c).headD "") = e)

/-- `_add_manual_score_at`'s store mutation: drop every `manual_score`
for the chosen top-level exercise, then append the fresh one (X locked
to the margin offset when margin alignment is on). -/
def add_manual_score (anns : List Ann) (page : Int) (x y : ℚ)
    (ex_code ex_label : String) (pts : ℚ) (newId : String)
    (alignMargin : Bool) (marginX : ℚ) : List Ann :=
  let kept := anns.filter (fun a => !is_manual_for ex_code a)
  let x_use := if alignMargin then marginX else x
  kept ++ [{ id := newId, kind := "manual_score", page := page,
             x_pt := x_use, y_pt := y, exercise_code := ex_code,
             points := pts, radius_pt := 11,
             payloadTag := "manual_score" }]

/-! # Theorems -/

/-! ## Grading-scheme helper lemmas -/

/-- A node found by code carries that code. -/
theorem find_in_list_code (cd : String) :
    ∀ (l : List Node) (n : Node), find_in_list l cd = some n → n.code = cd := by
  have H := find_in_list.induct
    (fun nd x => ∀ m, find_in_node nd x = some m → m.code = x)
    (fun l x => ∀ m, find_in_list l x = some m → m.code = x)
  intro l n
  refine H ?_ ?_ ?_ ?_ ?_ l cd n
  · intro lb r ch code m hm
    simp only [find_in_node, if_pos rfl] at hm
    cases hm
    rfl
  · intro c lb r ch code hne ih m hm
    simp only [find_in_node, if_neg hne] at hm
    exact ih m hm
  · intro x m hm
    simp [find_in_list] at hm
  · intro nd rest code x hx ih m hm
    simp only [find_in_list, hx] at hm
    injection hm with h
    subst h
    exact ih _ hx
  · intro nd rest code hx ih1 ih2 m hm
    simp only [find_in_list, hx] at hm
    exact ih2 m hm

/-- Replacing the first DFS match by a node with the same code makes a
subsequent lookup of that code return the replacement. -/
theorem find_replace_in_list (nw : Node) (cd : String) (hc : nw.code = cd) :
    ∀ l : List Node, (find_in_list l cd).isSome →
      find_in_list (replace_in_list l cd nw) cd = some nw := by
  have H := find_in_list.induct
    (fun nd x => x = cd → (find_in_node nd x).isSome →
      find_in_node (replace_in_node nd x nw) x = some nw)
    (fun l x => x = cd → (find_in_list l x).isSome →
      find_in_list (replace_in_list l x nw) x = some nw)
  intro l
  refine H ?_ ?_ ?_ ?_ ?_ l cd rfl
  · intro lb r ch code hcd _
    subst hcd
    simp only [replace_in_node, if_pos rfl]
    obtain ⟨c2, l2, r2, ch2⟩ := nw
    have : c2 = code := hc
    simp [find_in_node, this]
  · intro c lb r ch code hne ih hcd hsome
    simp only [find_in_node, if_neg hne] at hsome
    simp only [replace_in_node, if_neg hne, find_in_node]
    exact ih hcd hsome
  · intro x _ hsome
    simp [find_in_list] at hsome
  · intro nd rest code x hx ih hcd _
    simp only [replace_in_list, hx, find_in_list]
    have hrep := ih hcd (by simp [hx])
    simp [hrep]
  · intro nd rest code hx ih1 ih2 hcd hsome
    simp only [find_in_list, hx] at hsome
    simp only [replace_in_list, hx, find_in_list]
    have hrep := ih2 hcd hsome
    have : find_in_node nd code = none := hx
    simp [this, hrep]

/-! ## C8 -/

/-- C8 (corrected). After `add_subsublevel` succeeds on a node, that
node's rubric is cleared and its children are non-empty; after
`add_sublevel` succeeds, the children are non-empty and the rubric is
whatever it was before — null exactly when the exercise carried none
(which `add_sublevel` itself never guarantees). -/
theorem add_child_ops_rubric_exclusivity :
    (∀ (s : Scheme) (c : String) (out : Scheme × String),
       add_subsublevel s c = Except.ok out →
       ∃ n, find_node out.1 c = some n ∧ n.rubric = none ∧ n.children ≠ []) ∧
    (∀ (s : Scheme) (c : String) (out : Scheme × String),
       add_sublevel s c = Except.ok out →
       ∀ n0, find_node s c = some n0 → n0.rubric = none →
       ∃ n, find_node out.1 c = some n ∧ n.rubric = none ∧ n.children ≠ []) := by
  constructor
  · intro s c out h
    unfold add_subsublevel at h
    cases hf : find_node s c with
    | none => rw [hf] at h; cases h
    | some node =>
      rw [hf] at h
      dsimp only at h
      by_cases hl : node.level ≠ 1
      · rw [if_pos hl] at h; cases h
      · rw [if_neg hl] at h
        cases h
        set n2 : Node := Node.mk node.code node.label none
          (node.children ++ [Node.mk (node.code ++ "." ++ toString (next_subsub_index node))
            ("Ex " ++ (node.code ++ "." ++ toString (next_subsub_index node))) (some {}) []])
          with hn2
        refine ⟨n2, ?_, ?_, ?_⟩
        · have hc2 : n2.code = c := by
            rw [hn2]
            simpa [Node.code] using find_in_list_code c s.exercises node hf
          have hs : (find_in_list s.exercises c).isSome := by
            simp only [find_node] at hf
            simp [hf]
          simpa [find_node] using find_replace_in_list n2 c hc2 s.exercises hs
        · rw [hn2]; rfl
        · rw [hn2]; simp [Node.children]
  · intro s c out h n0 hf0 hrub
    unfold add_sublevel at h
    cases hf : find_node s c with
    | none => rw [hf] at h; cases h
    | some ex =>
      rw [hf] at h
      dsimp only at h
      by_cases hl : ex.level ≠ 0
      · rw [if_pos hl] at h; cases h
      · rw [if_neg hl] at h
        cases h
        have hex : ex = n0 := by rw [hf] at hf0; injection hf0
        rw [← hex] at hrub
        set ex2 : Node := Node.mk ex.code ex.label ex.rubric
          (ex.children ++ [Node.mk (ex.code ++ "." ++ toString (next_child_index ex))
            ("Ex " ++ (ex.code ++ "." ++ toString (next_child_index ex))) (some {}) []])
          with hex2
        refine ⟨ex2, ?_, ?_, ?_⟩
        · have hc2 : ex2.code = c := by
            rw [hex2]
            simpa [Node.code] using find_in_list_code c s.exercises ex hf
          have hs : (find_in_list s.exercises c).isSome := by
            simp only [find_node] at hf
            simp [hf]
          simpa [find_node] using find_replace_in_list ex2 c hc2 s.exercises hs
        · rw [hex2]; simpa [Node.rubric] using hrub
        · rw [hex2]; simp [Node.children]

/-- Witness for the C8 theorem at concrete schemes. -/
theorem add_child_ops_rubric_exclusivity_witness :
    (∃ out, add_subsublevel ⟨[Node.mk "1" "" none [Node.mk "1.1" "" (some {}) []]]⟩ "1.1"
        = Except.ok out ∧
      ∃ n, find_node out.1 "1.1" = some n ∧ n.rubric = none ∧ n.children ≠ []) ∧
    (∃ out, add_sublevel ⟨[Node.mk "2" "" none []]⟩ "2" = Except.ok out ∧
      ∃ n, find_node out.1 "2" = some n ∧ n.rubric = none ∧ n.children ≠ []) := by
  constructor
  · refine ⟨(⟨[Node.mk "1" "" none
      [Node.mk "1.1" "" none [Node.mk "1.1.1" "Ex 1.1.1" (some {}) []]]]⟩, "1.1.1"), rfl, ?_⟩
    exact add_child_ops_rubric_exclusivity.1
      ⟨[Node.mk "1" "" none [Node.mk "1.1" "" (some {}) []]]⟩ "1.1" _ rfl
  · refine ⟨(⟨[Node.mk "2" "" none [Node.mk "2.1" "Ex 2.1" (some {}) []]]⟩, "2.1"), rfl, ?_⟩
    exact add_child_ops_rubric_exclusivity.2
      ⟨[Node.mk "2" "" none []]⟩ "2" _ rfl (Node.mk "2" "" none []) rfl rfl

/-- C8 counterexample: a scheme whose level-0 exercise carries a
rubric (constructible, e.g. loaded by `Node.from_dict`) keeps that
rubric across a successful `add_sublevel`, so the claim's "rubric is
null afterwards" fails for `add_sublevel` as stated. -/
theorem add_sublevel_keeps_rubric_counterexample :
    ((add_sublevel ⟨[Node.mk "1" "Exercice 1" (some {}) []]⟩ "1").toOption.map
      (fun out => ((find_node out.1 "1").map
        (fun n => n.rubric.isSome && !n.children.isEmpty)).getD false)) = some true := by
  rfl

/-! ## C10 -/

/-- C10. `points_for` is total: an unresolved leaf code yields `0.0`;
a resolved node with no rubric uses the default rubric
`good=1, partial=0.5, bad=0`; any result string other than `"good"`
and `"partial"` takes the `bad` value of the effective rubric. -/
theorem points_for_total_and_defaults :
    ∀ (s : Scheme) (c res : String),
      (find_node s c = none → points_for s c res = 0) ∧
      (∀ n, find_node s c = some n → n.rubric = none →
        points_for s c res =
          (if res = "good" then 1 else if res = "partial" then 1/2 else 0)) ∧
      (∀ n, find_node s c = some n → res ≠ "good" → res ≠ "partial" →
        points_for s c res = (n.rubric.getD {}).bad) := by
  intro s c res
  refine ⟨?_, ?_, ?_⟩
  · intro h
    simp [points_for, h]
  · intro n h hrub
    simp only [points_for, h, hrub]
    rcases eq_or_ne res "good" with hg | hg
    · simp [hg, Option.getD, Rubric.good]
    · rcases eq_or_ne res "partial" with hp | hp
      · simp [hg, hp, Option.getD, Rubric.partialPts]
      · simp [hg, hp, Option.getD, Rubric.bad]
  · intro n h hg hp
    simp [points_for, h, hg, hp]

/-- Witness for the C10 theorem at concrete schemes and inputs. -/
theorem points_for_total_and_defaults_witness :
    points_for ⟨[]⟩ "9" "good" = 0 ∧
    points_for ⟨[Node.mk "1" "" none [Node.mk "1.1" "" none []]]⟩ "1.1" "partial" = 1/2 ∧
    points_for ⟨[Node.mk "1" "" none [Node.mk "1.1" "" (some ⟨2, 1, 0⟩) []]]⟩ "1.1" "weird" = 0 := by
  refine ⟨(points_for_total_and_defaults ⟨[]⟩ "9" "good").1 rfl, ?_, ?_⟩
  · have h := (points_for_total_and_defaults
      ⟨[Node.mk "1" "" none [Node.mk "1.1" "" none []]]⟩ "1.1" "partial").2.1
      (Node.mk "1.1" "" none []) rfl rfl
    simpa using h
  · have h := (points_for_total_and_defaults
      ⟨[Node.mk "1" "" none [Node.mk "1.1" "" (some ⟨2, 1, 0⟩) []]]⟩ "1.1" "weird").2.2
      (Node.mk "1.1" "" (some ⟨2, 1, 0⟩) []) rfl (by decide) (by decide)
    simpa [Node.rubric] using h

/-! ## Python-dict lemmas -/

theorem pyGet_pySet_self (d : StrMap) (k : String) (v dflt : ℚ) :
    pyGet (pySet d k v) k dflt = v := by
  induction d with
  | nil => simp [pySet, pyGet]
  | cons kv rest ih =>
    by_cases h : kv.1 = k
    · simp [pySet, h, pyGet]
    · simp [pySet, h, pyGet, ih]

theorem pyGet_pySet_other (d : StrMap) (k e : String) (v dflt : ℚ) (hk : k ≠ e) :
    pyGet (pySet d k v) e dflt = pyGet d e dflt := by
  induction d with
  | nil => simp [pySet, pyGet, hk]
  | cons kv rest ih =>
    by_cases h : kv.1 = k
    · simp [pySet, h, pyGet, hk]
    · simp [pySet, h, pyGet, ih]

theorem mem_pyKeys_pySet (d : StrMap) (k e : String) (v : ℚ) :
    e ∈ pyKeys (pySet d k v) ↔ e ∈ pyKeys d ∨ e = k := by
  induction d with
  | nil => simp [pySet, pyKeys]
  | cons kv rest ih =>
    by_cases h : kv.1 = k
    · simp only [pySet]
      rw [if_pos h]
      simp only [pyKeys, List.map_cons, List.mem_cons, h]
      tauto
    · simp only [pySet]
      rw [if_neg h]
      simp only [pyKeys, List.map_cons, List.mem_cons] at ih ⊢
      rw [ih]
      tauto

theorem pyMem_iff_mem_pyKeys (d : StrMap) (e : String) :
    pyMem d e = true ↔ e ∈ pyKeys d := by
  induction d with
  | nil => simp [pyMem, pyKeys]
  | cons kv rest ih =>
    simp only [pyMem, pyKeys, List.map_cons, List.mem_cons, Bool.or_eq_true,
      decide_eq_true_eq, ih]
    constructor
    · rintro (rfl | hm)
      · exact Or.inl rfl
      · exact Or.inr hm
    · rintro (rfl | hm)
      · exact Or.inl rfl
      · exact Or.inr hm

/-! ## Aggregation-fold lemmas for `_doc_attrib_total` -/

theorem attrib_step_of_circle (st : StrMap × StrMap) (a : Ann) (e : String)
    (h : circleCodeOf a = some e) :
    attrib_step st a = (pySet st.1 e (pyGet st.1 e 0 + a.points), st.2) := by
  unfold circleCodeOf at h
  by_cases hk : a.kind = "score_circle"
  · rw [if_pos hk] at h
    by_cases hc : pyStrip a.exercise_code = ""
    · rw [if_pos hc] at h; cases h
    · rw [if_neg hc] at h
      injection h with h
      unfold attrib_step
      rw [if_pos hk]
      simp only [hc, if_false]
      rw [show ((pySplitDot (pyStrip a.exercise_code)).headD "") = e from h ▸ rfl]
  · rw [if_neg hk] at h; cases h

theorem attrib_step_of_manual (st : StrMap × StrMap) (a : Ann) (e : String)
    (h : manualCodeOf a = some e) :
    attrib_step st a = (st.1, pySet st.2 e a.points) := by
  unfold manualCodeOf at h
  by_cases hk : a.kind = "manual_score"
  · rw [if_pos hk] at h
    by_cases hc : pyStrip a.exercise_code = ""
    · rw [if_pos hc] at h; cases h
    · rw [if_neg hc] at h
      injection h with h
      unfold attrib_step
      have hk2 : a.kind ≠ "score_circle" := by rw [hk]; decide
      rw [if_neg hk2, if_pos hk]
      simp only [hc, if_false]
      rw [show ((pySplitDot (pyStrip a.exercise_code)).headD "") = e from h ▸ rfl]
  · rw [if_neg hk] at h; cases h

theorem attrib_step_of_none (st : StrMap × StrMap) (a : Ann)
    (h1 : circleCodeOf a = none) (h2 : manualCodeOf a = none) :
    attrib_step st a = st := by
  unfold circleCodeOf at h1
  unfold manualCodeOf at h2
  unfold attrib_step
  by_cases hk : a.kind = "score_circle"
  · rw [if_pos hk] at h1
    by_cases hc : pyStrip a.exercise_code = ""
    · rw [if_pos hk]
      simp [hc]
    · rw [if_neg hc] at h1; cases h1
  · rw [if_neg hk]
    by_cases hm : a.kind = "manual_score"
    · rw [if_pos hm] at h2
      by_cases hc : pyStrip a.exercise_code = ""
      · rw [if_pos hm]
        simp [hc]
      · rw [if_neg hc] at h2; cases h2
    · rw [if_neg hm]

theorem circle_sum_cons (a : Ann) (l : List Ann) (e : String) :
    circle_sum (a :: l) e =
      (if circleCodeOf a = some e then a.points else 0) + circle_sum l e := by
  by_cases h : circleCodeOf a = some e
  · simp [circle_sum, List.filter_cons, h]
  · simp [circle_sum, List.filter_cons, h]

theorem last_manual_cons (a : Ann) (l : List Ann) (e : String) :
    last_manual (a :: l) e =
      if manualCodeOf a = some e then some ((last_manual l e).getD a.points)
      else last_manual l e := by
  by_cases h : manualCodeOf a = some e
  · rw [if_pos h]
    unfold last_manual
    rw [List.filter_cons, if_pos (by simpa using h)]
    cases hl : l.filter (fun x => decide (manualCodeOf x = some e)) with
    | nil => simp
    | cons b bs =>
      rw [List.getLast?_cons_cons]
      obtain ⟨x, hx⟩ := Option.isSome_iff_exists.mp
        (List.getLast?_isSome.mpr (List.cons_ne_nil b bs))
      rw [hx]
      simp
  · rw [if_neg h]
    unfold last_manual
    rw [List.filter_cons, if_neg (by simpa using h)]

theorem attrib_fold_fst_get (anns : List Ann) :
    ∀ (st : StrMap × StrMap) (e : String),
      pyGet (anns.foldl attrib_step st).1 e 0 = pyGet st.1 e 0 + circle_sum anns e := by
  induction anns with
  | nil => intro st e; simp [circle_sum]
  | cons a rest ih =>
    intro st e
    rw [List.foldl_cons, circle_sum_cons]
    rcases hc : circleCodeOf a with _ | ec
    · rcases hm : manualCodeOf a with _ | em
      · rw [attrib_step_of_none st a hc hm, ih]
        simp [hc]
      · rw [attrib_step_of_manual st a em hm, ih]
        simp [hc]
    · rw [attrib_step_of_circle st a ec hc, ih]
      by_cases he : ec = e
      · subst he
        rw [pyGet_pySet_self]
        rw [show (if (some ec : Option String) = some ec then a.points else 0) = a.points
          from if_pos rfl]
        ring
      · rw [pyGet_pySet_other _ _ _ _ _ he]
        rw [show (if (some ec : Option String) = some e then a.points else 0) = 0
          from if_neg (by simpa using he)]
        ring

theorem attrib_fold_snd_get (anns : List Ann) :
    ∀ (st : StrMap × StrMap) (e : String) (dflt : ℚ),
      pyGet (anns.foldl attrib_step st).2 e dflt
        = (last_manual anns e).getD (pyGet st.2 e dflt) := by
  induction anns with
  | nil => intro st e dflt; simp [last_manual]
  | cons a rest ih =>
    intro st e dflt
    rw [List.foldl_cons, last_manual_cons]
    rcases hm : manualCodeOf a with _ | em
    · rcases hc : circleCodeOf a with _ | ec
      · rw [attrib_step_of_none st a hc hm, ih]
        simp [hm]
      · rw [attrib_step_of_circle st a ec hc, ih]
        simp [hm]
    · rw [attrib_step_of_manual st a em hm, ih]
      by_cases he : em = e
      · subst he
        rw [pyGet_pySet_self]
        rw [show (if (some em : Option String) = some em
            then some ((last_manual rest em).getD a.points) else last_manual rest em)
            = some ((last_manual rest em).getD a.points) from if_pos rfl]
        rfl
      · rw [pyGet_pySet_other _ _ _ _ _ he]
        rw [show (if (some em : Option String) = some e
            then some ((last_manual rest e).getD a.points) else last_manual rest e)
            = last_manual rest e from if_neg (by simpa using he)]

theorem attrib_fold_fst_keys (anns : List Ann) :
    ∀ (st : StrMap × StrMap) (e : String),
      e ∈ pyKeys (anns.foldl attrib_step st).1
        ↔ e ∈ pyKeys st.1 ∨ e ∈ anns.filterMap circleCodeOf := by
  induction anns with
  | nil => intro st e; simp
  | cons a rest ih =>
    intro st e
    rw [List.foldl_cons]
    rcases hc : circleCodeOf a with _ | ec
    · rcases hm : manualCodeOf a with _ | em
      · rw [attrib_step_of_none st a hc hm, ih]
        simp [List.filterMap_cons, hc]
      · rw [attrib_step_of_manual st a em hm, ih]
        simp [List.filterMap_cons, hc]
    · rw [attrib_step_of_circle st a ec hc, ih]
      simp only [List.filterMap_cons, hc, List.mem_cons]
      rw [mem_pyKeys_pySet]
      tauto

theorem attrib_fold_snd_keys (anns : List Ann) :
    ∀ (st : StrMap × StrMap) (e : String),
      e ∈ pyKeys (anns.foldl attrib_step st).2
        ↔ e ∈ pyKeys st.2 ∨ e ∈ anns.filterMap manualCodeOf := by
  induction anns with
  | nil => intro st e; simp
  | cons a rest ih =>
    intro st e
    rw [List.foldl_cons]
    rcases hm : manualCodeOf a with _ | em
    · rcases hc : circleCodeOf a with _ | ec
      · rw [attrib_step_of_none st a hc hm, ih]
        simp [List.filterMap_cons, hm]
      · rw [attrib_step_of_circle st a ec hc, ih]
        simp [List.filterMap_cons, hm]
    · rw [attrib_step_of_manual st a em hm, ih]
      simp only [List.filterMap_cons, hm, List.mem_cons]
      rw [mem_pyKeys_pySet]
      tauto

theorem last_manual_isSome_iff (anns : List Ann) (e : String) :
    (last_manual anns e).isSome ↔ e ∈ anns.filterMap manualCodeOf := by
  unfold last_manual
  rw [Option.isSome_map', List.getLast?_isSome, Ne, List.filter_eq_nil_iff]
  simp only [decide_eq_true_eq, List.mem_filterMap]
  push_neg
  constructor
  · rintro ⟨a, ha, hm⟩
    exact ⟨a, ha, hm⟩
  · rintro ⟨a, ha, hm⟩
    exact ⟨a, ha, hm⟩

theorem foldl_add_map (f : String → ℚ) :
    ∀ (K : List String) (t0 : ℚ),
      K.foldl (fun t e => t + f e) t0 = t0 + (K.map f).sum := by
  intro K
  induction K with
  | nil => intro t0; simp
  | cons k rest ih =>
    intro t0
    rw [List.foldl_cons, ih]
    simp [add_assoc]

/-- The fold of `_doc_attrib_total` refines the specification-style
aggregation: the total is the sum, over all touched top-level keys, of
the manual value when one exists and the pastille sum otherwise. -/
theorem doc_attrib_total_eq_spec (anns : List Ann) :
    doc_attrib_total anns = ((agg_keys anns).map (attrib_contribution anns)).sum := by
  unfold doc_attrib_total
  dsimp only
  set st := anns.foldl attrib_step ([], []) with hst
  have hstep : (fun (t : ℚ) (ex : String) =>
      if pyMem st.2 ex then t + pyGet st.2 ex 0 else t + pyGet st.1 ex 0)
      = fun t ex => t + (if pyMem st.2 ex then pyGet st.2 ex 0 else pyGet st.1 ex 0) := by
    funext t ex
    split <;> rfl
  rw [hstep, foldl_add_map, zero_add]
  set g : String → ℚ :=
    fun ex => if pyMem st.2 ex then pyGet st.2 ex 0 else pyGet st.1 ex 0 with hg
  have hpt : ∀ e, g e = attrib_contribution anns e := by
    intro e
    have hmemM : pyMem st.2 e = true ↔ (last_manual anns e).isSome := by
      rw [pyMem_iff_mem_pyKeys, hst, attrib_fold_snd_keys, last_manual_isSome_iff]
      simp [pyKeys]
    by_cases hm : pyMem st.2 e
    · obtain ⟨m, hlm⟩ := Option.isSome_iff_exists.mp (hmemM.mp hm)
      rw [hg]
      simp only [hm, if_true]
      rw [hst, attrib_fold_snd_get, hlm]
      unfold attrib_contribution
      rw [hlm]
      rfl
    · have hnone : last_manual anns e = none := by
        rcases h : last_manual anns e with _ | m
        · rfl
        · exact absurd (hmemM.mpr (by rw [h]; rfl)) hm
      rw [hg]
      simp only [hm, if_false]
      rw [hst, attrib_fold_fst_get]
      unfold attrib_contribution
      rw [hnone]
      simp [pyGet]
  have hmapg : ((pyKeys st.1 ++ pyKeys st.2).dedup.map g)
      = (pyKeys st.1 ++ pyKeys st.2).dedup.map (attrib_contribution anns) := by
    exact List.map_congr_left (fun e _ => hpt e)
  rw [hmapg]
  have hK1 : ((pyKeys st.1 ++ pyKeys st.2).dedup).Nodup := List.nodup_dedup _
  have hK2 : (agg_keys anns).Nodup := List.nodup_dedup _
  have hmem : ∀ e, e ∈ (pyKeys st.1 ++ pyKeys st.2).dedup ↔ e ∈ agg_keys anns := by
    intro e
    rw [List.mem_dedup, List.mem_append, hst]
    unfold agg_keys
    rw [List.mem_dedup, List.mem_append]
    rw [attrib_fold_fst_keys, attrib_fold_snd_keys]
    simp [pyKeys]
  have hFin : ((pyKeys st.1 ++ pyKeys st.2).dedup).toFinset = (agg_keys anns).toFinset := by
    ext e
    rw [List.mem_toFinset, List.mem_toFinset]
    exact hmem e
  calc ((pyKeys st.1 ++ pyKeys st.2).dedup.map (attrib_contribution anns)).sum
      = ((pyKeys st.1 ++ pyKeys st.2).dedup).toFinset.sum (attrib_contribution anns) :=
        (List.sum_toFinset _ hK1).symm
    _ = ((agg_keys anns).toFinset).sum (attrib_contribution anns) := by rw [hFin]
    _ = ((agg_keys anns).map (attrib_contribution anns)).sum :=
        List.sum_toFinset _ hK2

/-! ## C1 -/

/-- C1 (confirmed). In `_doc_attrib_total`'s aggregation, every
touched top-level exercise contributes the manual value when a
`manual_score` exists for it (replacing, not adding to, its pastille
sum) and exactly its pastille sum otherwise; concretely, exercise
`"3"` with two pastilles worth 2 and 1 totals 3, and adding a
`manual_score` of 4 makes it 4. -/
theorem doc_attrib_total_manual_override :
    (∀ anns : List Ann,
       doc_attrib_total anns = ((agg_keys anns).map (attrib_contribution anns)).sum) ∧
    (∀ (anns : List Ann) (e : String) (m : ℚ),
       last_manual anns e = some m → attrib_contribution anns e = m) ∧
    (∀ (anns : List Ann) (e : String),
       last_manual anns e = none → attrib_contribution anns e = circle_sum anns e) ∧
    doc_attrib_total
      [{ kind := "score_circle", exercise_code := "3.1", points := 2 },
       { kind := "score_circle", exercise_code := "3.2", points := 1 }] = 3 ∧
    doc_attrib_total
      [{ kind := "score_circle", exercise_code := "3.1", points := 2 },
       { kind := "score_circle", exercise_code := "3.2", points := 1 },
       { kind := "manual_score", exercise_code := "3", points := 4 }] = 4 := by
  refine ⟨doc_attrib_total_eq_spec, ?_, ?_, ?_, ?_⟩
  · intro anns e m h
    unfold attrib_contribution
    rw [h]
  · intro anns e h
    unfold attrib_contribution
    rw [h]
  · simp +decide only [doc_attrib_total, attrib_step, pySet, pyGet, pyMem, pyKeys,
      pySplitDot, splitDotAux, pyStrip, List.foldl, List.dedup, List.map]
    norm_num
  · simp +decide only [doc_attrib_total, attrib_step, pySet, pyGet, pyMem, pyKeys,
      pySplitDot, splitDotAux, pyStrip, List.foldl, List.dedup, List.map]
    norm_num

/-- Witness for the C1 theorem's conditional conjuncts at concrete
annotation lists. -/
theorem doc_attrib_total_manual_override_witness :
    attrib_contribution
      [{ kind := "manual_score", exercise_code := "3", points := 4 }] "3" = 4 ∧
    attrib_contribution
      [{ kind := "score_circle", exercise_code := "3.1", points := 2 }] "3" = 2 := by
  constructor
  · exact doc_attrib_total_manual_override.2.1
      [{ kind := "manual_score", exercise_code := "3", points := 4 }] "3" 4 rfl
  · have h := doc_attrib_total_manual_override.2.2.1
      [{ kind := "score_circle", exercise_code := "3.1", points := 2 }] "3" rfl
    rw [h]
    simp +decide only [circle_sum, circleCodeOf, topKey, pySplitDot, splitDotAux, pyStrip,
      List.filter, List.map]
    norm_num

/-! ## C2 -/

theorem circle_sum_append (l1 l2 : List Ann) (e : String) :
    circle_sum (l1 ++ l2) e = circle_sum l1 e + circle_sum l2 e := by
  simp [circle_sum, List.filter_append]

theorem pySet_append_of_not_mem (d : StrMap) (k : String) (v : ℚ)
    (h : k ∉ pyKeys d) : pySet d k v = d ++ [(k, v)] := by
  induction d with
  | nil => rfl
  | cons kv rest ih =>
    simp only [pyKeys, List.map_cons, List.mem_cons] at h
    push_neg at h
    simp only [pySet]
    rw [if_neg (fun hh => h.1 hh.symm)]
    rw [ih h.2]
    rfl

theorem pyGet_zeroed (d : StrMap) (k : String) :
    pyGet (d.map (fun kv => (kv.1, (0 : ℚ)))) k 0 = 0 := by
  induction d with
  | nil => rfl
  | cons kv rest ih =>
    by_cases h : kv.1 = k
    · simp [pyGet, h]
    · simp only [List.map_cons, pyGet]
      rw [if_neg h]
      exact ih

theorem note_circle_step_untouched (d : StrMap) (a : Ann) (k : String) (dflt : ℚ)
    (h : circleCodeOf a ≠ some k) :
    pyGet (if a.kind = "score_circle" then
        (if pyStrip a.exercise_code = "" then d
         else pySet d ((pySplitDot (pyStrip a.exercise_code)).headD "")
           (pyGet d ((pySplitDot (pyStrip a.exercise_code)).headD "") 0 + a.points))
      else d) k dflt = pyGet d k dflt := by
  by_cases hk : a.kind = "score_circle"
  · rw [if_pos hk]
    by_cases hc : pyStrip a.exercise_code = ""
    · rw [if_pos hc]
    · rw [if_neg hc]
      have hne : ((pySplitDot (pyStrip a.exercise_code)).headD "") ≠ k := by
        intro hh
        apply h
        unfold circleCodeOf
        rw [if_pos hk, if_neg hc]
        unfold topKey
        rw [hh]
      exact pyGet_pySet_other _ _ _ _ _ hne
  · rw [if_neg hk]

theorem note_manual_step_untouched (d : StrMap) (a : Ann) (k : String) (dflt : ℚ)
    (h : manualCodeOf a ≠ some k) :
    pyGet (if a.kind = "manual_score" then
        (if pyStrip a.exercise_code = "" then d
         else if pyMem d ((pySplitDot (pyStrip a.exercise_code)).headD "")
           then pySet d ((pySplitDot (pyStrip a.exercise_code)).headD "") a.points else d)
      else d) k dflt = pyGet d k dflt := by
  by_cases hk : a.kind = "manual_score"
  · rw [if_pos hk]
    by_cases hc : pyStrip a.exercise_code = ""
    · rw [if_pos hc]
    · rw [if_neg hc]
      have hne : ((pySplitDot (pyStrip a.exercise_code)).headD "") ≠ k := by
        intro hh
        apply h
        unfold manualCodeOf
        rw [if_pos hk, if_neg hc]
        unfold topKey
        rw [hh]
      by_cases hm : pyMem d ((pySplitDot (pyStrip a.exercise_code)).headD "")
      · rw [if_pos hm]
        exact pyGet_pySet_other _ _ _ _ _ hne
      · rw [if_neg hm]
  · rw [if_neg hk]

theorem note_circle_pass_untouched (anns : List Ann) :
    ∀ (d : StrMap) (k : String) (dflt : ℚ),
      (∀ x ∈ anns, circleCodeOf x ≠ some k) →
      pyGet (anns.foldl
        (fun d a =>
          if a.kind = "score_circle" then
            let code := pyStrip a.exercise_code
            if code = "" then d
            else
              let ex := (pySplitDot code).headD ""
              pySet d ex (pyGet d ex 0 + a.points)
          else d) d) k dflt = pyGet d k dflt := by
  induction anns with
  | nil => intro d k dflt _; rfl
  | cons a rest ih =>
    intro d k dflt h
    rw [List.foldl_cons]
    rw [ih _ k dflt (fun x hx => h x (List.mem_cons_of_mem a hx))]
    exact note_circle_step_untouched d a k dflt (h a (List.mem_cons_self a rest))

theorem note_manual_pass_untouched (anns : List Ann) :
    ∀ (d : StrMap) (k : String) (dflt : ℚ),
      (∀ x ∈ anns, manualCodeOf x ≠ some k) →
      pyGet (anns.foldl
        (fun d a =>
          if a.kind = "manual_score" then
            let code := pyStrip a.exercise_code
            if code = "" then d
            else
              let ex := (pySplitDot code).headD ""
              if pyMem d ex then pySet d ex a.points else d
          else d) d) k dflt = pyGet d k dflt := by
  induction anns with
  | nil => intro d k dflt _; rfl
  | cons a rest ih =>
    intro d k dflt h
    rw [List.foldl_cons]
    rw [ih _ k dflt (fun x hx => h x (List.mem_cons_of_mem a hx))]
    exact note_manual_step_untouched d a k dflt (h a (List.mem_cons_self a rest))

theorem max_by_ex_fold_fresh :
    ∀ (exs : List Node) (d : StrMap),
      (∀ ex ∈ exs, ex.code ∉ pyKeys d) → (exs.map Node.code).Nodup →
      exs.foldl (fun d ex => pySet d ex.code (total_good ex)) d
        = d ++ exs.map (fun ex => (ex.code, total_good ex)) := by
  intro exs
  induction exs with
  | nil => intro d _ _; simp
  | cons e rest ih =>
    intro d hfresh hnodup
    rw [List.foldl_cons]
    rw [pySet_append_of_not_mem d e.code (total_good e)
      (hfresh e (List.mem_cons_self e rest))]
    simp only [List.map_cons, List.nodup_cons] at hnodup
    rw [ih (d ++ [(e.code, total_good e)]) ?_ hnodup.2]
    · simp
    · intro ex hex
      simp only [pyKeys, List.map_append, List.mem_append, List.map_cons]
      push_neg
      refine ⟨hfresh ex (List.mem_cons_of_mem e hex), ?_⟩
      simp only [List.map_nil, List.mem_singleton]
      intro hh
      exact hnodup.1 (hh ▸ List.mem_map_of_mem Node.code hex)

/-- C2 counterexample: with a scheme containing only exercise `"1"`,
a single `score_circle` whose `exercise_code` `"99.1"` resolves to no
scheme exercise contributes its 5 points to both aggregation sites —
`_doc_attrib_total` and the final-note attributed total are 5, not the
0 the claim's "contributes nothing" requires. -/
theorem orphan_circle_counts_counterexample :
    doc_attrib_total [{ kind := "score_circle", exercise_code := "99.1", points := 5 }] = 5 ∧
    note_attrib_total
      ⟨[Node.mk "1" "Exercice 1" none
         [Node.mk "1.1" "" (some {}) [], Node.mk "1.2" "" (some {}) []]]⟩
      [{ kind := "score_circle", exercise_code := "99.1", points := 5 }] = 5 := by
  constructor
  · simp +decide only [doc_attrib_total, attrib_step, pySet, pyGet, pyMem, pyKeys,
      pySplitDot, splitDotAux, pyStrip, List.foldl, List.dedup, List.map]
    norm_num
  · simp +decide only [note_attrib_total, note_attrib_by_ex, note_circle_pass, max_by_ex,
      total_good, total_good_list, pyValuesSum, pySet, pyGet, pyMem, pyKeys,
      pySplitDot, splitDotAux, pyStrip, List.foldl, List.map, Node.code, Node.children,
      Node.rubric, List.isEmpty]
    norm_num

/-- C2 (corrected). A `score_circle` whose `exercise_code` resolves to
no scheme exercise does not error but is counted: it contributes its
points to the attributed total under its own top-level key (shown here
for a key fresh to the list).  An exercise with neither pastilles nor
a manual mark contributes 0 to the final-note attributed total, and
with distinct exercise codes the max side carries every exercise's
full `total_good`. -/
theorem orphan_counts_and_empty_exercise :
    (∀ (anns : List Ann) (a : Ann),
       a.kind = "score_circle" → pyStrip a.exercise_code ≠ "" →
       topKey a.exercise_code ∉ agg_keys anns →
       doc_attrib_total (anns ++ [a]) = doc_attrib_total anns + a.points) ∧
    (∀ (s : Scheme) (anns : List Ann) (ex : Node), ex ∈ s.exercises →
       (∀ x ∈ anns, circleCodeOf x ≠ some ex.code) →
       (∀ x ∈ anns, manualCodeOf x ≠ some ex.code) →
       pyGet (note_attrib_by_ex s anns) ex.code 0 = 0) ∧
    (∀ s : Scheme, (s.exercises.map Node.code).Nodup →
       max_by_ex s = s.exercises.map (fun ex => (ex.code, total_good ex)) ∧
       note_max_total s = (s.exercises.map total_good).sum) := by
  refine ⟨?_, ?_, ?_⟩
  · intro anns a hk hc hfresh
    have hcc : circleCodeOf a = some (topKey a.exercise_code) := by
      unfold circleCodeOf
      rw [if_pos hk, if_neg hc]
    have hmc : manualCodeOf a = none := by
      unfold manualCodeOf
      rw [if_neg (by rw [hk]; decide)]
    set t := topKey a.exercise_code with ht
    have hkeys : ∀ e, e ∈ agg_keys (anns ++ [a]) ↔ e ∈ agg_keys anns ∨ e = t := by
      intro e
      unfold agg_keys
      rw [List.mem_dedup, List.mem_dedup]
      rw [List.filterMap_append, List.filterMap_append]
      simp only [List.filterMap_cons, List.filterMap_nil, hcc, hmc, List.mem_append,
        List.mem_singleton, List.mem_cons, List.not_mem_nil]
      tauto
    have hfm : t ∉ anns.filterMap circleCodeOf ∧ t ∉ anns.filterMap manualCodeOf := by
      constructor
      · intro hmem
        exact hfresh (by unfold agg_keys; rw [List.mem_dedup, List.mem_append]; exact Or.inl hmem)
      · intro hmem
        exact hfresh (by unfold agg_keys; rw [List.mem_dedup, List.mem_append]; exact Or.inr hmem)
    have hcontrib_ne : ∀ e, e ≠ t →
        attrib_contribution (anns ++ [a]) e = attrib_contribution anns e := by
      intro e hne
      unfold attrib_contribution circle_sum last_manual
      rw [List.filter_append, List.filter_append]
      have h1 : List.filter (fun x => decide (manualCodeOf x = some e)) [a] = [] := by
        simp [hmc]
      have h2 : List.filter (fun x => decide (circleCodeOf x = some e)) [a] = [] := by
        simp [hcc]
        exact fun hh => hne hh.symm
      rw [h1, h2, List.append_nil, List.append_nil]
    have hmanual_t : last_manual (anns ++ [a]) t = none := by
      unfold last_manual
      rw [List.filter_append]
      have h1 : List.filter (fun x => decide (manualCodeOf x = some t)) [a] = [] := by
        simp [hmc]
      have h2 : List.filter (fun x => decide (manualCodeOf x = some t)) anns = [] := by
        rw [List.filter_eq_nil_iff]
        intro x hx hmx
        exact hfm.2 (List.mem_filterMap.mpr ⟨x, hx, by simpa using hmx⟩)
      rw [h1, h2]
      rfl
    have hcirc_anns_t : circle_sum anns t = 0 := by
      unfold circle_sum
      have h2 : List.filter (fun x => decide (circleCodeOf x = some t)) anns = [] := by
        rw [List.filter_eq_nil_iff]
        intro x hx hmx
        exact hfm.1 (List.mem_filterMap.mpr ⟨x, hx, by simpa using hmx⟩)
      rw [h2]
      rfl
    have hcontrib_t : attrib_contribution (anns ++ [a]) t = a.points := by
      unfold attrib_contribution
      rw [hmanual_t, circle_sum_append, hcirc_anns_t]
      unfold circle_sum
      have : List.filter (fun x => decide (circleCodeOf x = some t)) [a] = [a] := by
        simp [hcc]
      rw [this]
      simp
    have hnodup1 : (agg_keys (anns ++ [a])).Nodup := List.nodup_dedup _
    have hnodup2 : (agg_keys anns).Nodup := List.nodup_dedup _
    have hFin : (agg_keys (anns ++ [a])).toFinset = insert t (agg_keys anns).toFinset := by
      ext e
      rw [Finset.mem_insert, List.mem_toFinset, List.mem_toFinset, hkeys e]
      tauto
    rw [doc_attrib_total_eq_spec, doc_attrib_total_eq_spec]
    rw [← List.sum_toFinset _ hnodup1, ← List.sum_toFinset _ hnodup2, hFin]
    rw [Finset.sum_insert (by rw [List.mem_toFinset]; exact hfresh)]
    rw [hcontrib_t]
    rw [Finset.sum_congr rfl (fun e he => hcontrib_ne e
      (by rw [List.mem_toFinset] at he; exact fun hh => hfresh (hh ▸ he)))]
    ring
  · intro s anns ex _ hcirc hman
    unfold note_attrib_by_ex
    rw [note_manual_pass_untouched anns _ _ _ hman]
    unfold note_circle_pass
    rw [note_circle_pass_untouched anns _ _ _ hcirc]
    exact pyGet_zeroed _ _
  · intro s hnodup
    have h := max_by_ex_fold_fresh s.exercises [] (by simp [pyKeys]) hnodup
    constructor
    · unfold max_by_ex
      rw [h]
      rfl
    · unfold note_max_total pyValuesSum
      unfold max_by_ex
      rw [h]
      simp only [List.nil_append, List.map_map]
      rw [show (Prod.snd ∘ fun ex : Node => (ex.code, total_good ex)) = total_good from rfl]

/-- Witness for the C2 theorem at concrete inputs. -/
theorem orphan_counts_and_empty_exercise_witness :
    doc_attrib_total
      ([{ kind := "score_circle", exercise_code := "1.1", points := 2 }] ++
       [{ kind := "score_circle", exercise_code := "99.1", points := 5 }])
      = doc_attrib_total [{ kind := "score_circle", exercise_code := "1.1", points := 2 }]
        + ({ kind := "score_circle", exercise_code := "99.1", points := 5 } : Ann).points ∧
    pyGet (note_attrib_by_ex
      ⟨[Node.mk "1" "Exercice 1" none [Node.mk "1.1" "" (some {}) []]]⟩
      [{ kind := "score_circle", exercise_code := "2.1", points := 3 }]) "1" 0 = 0 ∧
    note_max_total ⟨[Node.mk "1" "Exercice 1" none [Node.mk "1.1" "" (some {}) []]]⟩
      = ([Node.mk "1" "Exercice 1" none [Node.mk "1.1" "" (some {}) []]].map total_good).sum := by
  refine ⟨?_, ?_, ?_⟩
  · exact orphan_counts_and_empty_exercise.1
      [{ kind := "score_circle", exercise_code := "1.1", points := 2 }]
      { kind := "score_circle", exercise_code := "99.1", points := 5 }
      rfl (by decide) (by decide)
  · exact orphan_counts_and_empty_exercise.2.1
      ⟨[Node.mk "1" "Exercice 1" none [Node.mk "1.1" "" (some {}) []]]⟩
      [{ kind := "score_circle", exercise_code := "2.1", points := 3 }]
      (Node.mk "1" "Exercice 1" none [Node.mk "1.1" "" (some {}) []])
      (List.mem_singleton.mpr rfl) (by decide) (by decide)
  · exact (orphan_counts_and_empty_exercise.2.2
      ⟨[Node.mk "1" "Exercice 1" none [Node.mk "1.1" "" (some {}) []]]⟩ (by decide)).2

/-! ## C4 -/

/-- C4 (confirmed). After `_add_manual_score_at` runs for a top-level
exercise code, exactly one `manual_score` annotation for that code is
present — the newly inserted one — and every other annotation
(manual scores of other exercises and all non-manual kinds) is kept
unchanged, in order. -/
theorem add_manual_score_unique :
    ∀ (anns : List Ann) (page : Int) (x y : ℚ) (ex_code ex_label : String)
      (pts : ℚ) (newId : String) (am : Bool) (mx : ℚ),
      (if pyStrip ex_code = "" then "" else (pySplitDot (pyStrip ex_code)).headD "")
        = ex_code →
      ∃ newAnn : Ann,
        add_manual_score anns page x y ex_code ex_label pts newId am mx
          = anns.filter (fun a => !is_manual_for ex_code a) ++ [newAnn]
        ∧ newAnn.kind = "manual_score" ∧ newAnn.exercise_code = ex_code
        ∧ newAnn.points = pts
        ∧ (add_manual_score anns page x y ex_code ex_label pts newId am mx).filter
            (fun a => is_manual_for ex_code a) = [newAnn]
        ∧ (add_manual_score anns page x y ex_code ex_label pts newId am mx).filter
            (fun a => !is_manual_for ex_code a)
          = anns.filter (fun a => !is_manual_for ex_code a) := by
  intro anns page x y ex_code ex_label pts newId am mx h
  refine ⟨{ id := newId, kind := "manual_score", page := page,
            x_pt := if am then mx else x, y_pt := y, exercise_code := ex_code,
            points := pts, radius_pt := 11, payloadTag := "manual_score" },
    rfl, rfl, rfl, rfl, ?_, ?_⟩
  all_goals
    have hnew : is_manual_for ex_code
        ({ id := newId, kind := "manual_score", page := page,
           x_pt := if am then mx else x, y_pt := y, exercise_code := ex_code,
           points := pts, radius_pt := 11, payloadTag := "manual_score" } : Ann) = true := by
      simp only [is_manual_for, Bool.and_eq_true, decide_eq_true_eq]
      exact ⟨trivial, h⟩
  all_goals
    have hkept : (anns.filter (fun a => !is_manual_for ex_code a)).filter
        (fun a => is_manual_for ex_code a) = [] := by
      rw [List.filter_eq_nil_iff]
      intro a ha
      have hmem := (List.mem_filter.mp ha).2
      simp only [Bool.not_eq_true'] at hmem
      simp [hmem]
  · show (_ ++ [_] : List Ann).filter _ = _
    rw [List.filter_append, hkept]
    simp [hnew]
  · show (_ ++ [_] : List Ann).filter _ = _
    rw [List.filter_append]
    have hself : (anns.filter (fun a => !is_manual_for ex_code a)).filter
        (fun a => !is_manual_for ex_code a)
        = anns.filter (fun a => !is_manual_for ex_code a) := by
      rw [List.filter_eq_self]
      intro a ha
      exact (List.mem_filter.mp ha).2
    rw [hself]
    simp [hnew]

/-- Witness for the C4 theorem at a concrete store: an older manual
mark for `"3"`, a pastille, and a manual mark for `"2"`. -/
theorem add_manual_score_unique_witness :
    ∃ newAnn : Ann,
      add_manual_score
        [{ id := "m0", kind := "manual_score", exercise_code := "3", points := 1 },
         { id := "c0", kind := "score_circle", exercise_code := "3.1", points := 2 },
         { id := "m1", kind := "manual_score", exercise_code := "2", points := 5 }]
        0 7 8 "3" "Exercice 3" 4 "m2" false 0
        = ([{ id := "m0", kind := "manual_score", exercise_code := "3", points := 1 },
            { id := "c0", kind := "score_circle", exercise_code := "3.1", points := 2 },
            { id := "m1", kind := "manual_score", exercise_code := "2", points := 5 }] :
            List Ann).filter (fun a => !is_manual_for "3" a) ++ [newAnn]
      ∧ newAnn.kind = "manual_score" ∧ newAnn.exercise_code = "3"
      ∧ newAnn.points = 4
      ∧ (add_manual_score
          [{ id := "m0", kind := "manual_score", exercise_code := "3", points := 1 },
           { id := "c0", kind := "score_circle", exercise_code := "3.1", points := 2 },
           { id := "m1", kind := "manual_score", exercise_code := "2", points := 5 }]
          0 7 8 "3" "Exercice 3" 4 "m2" false 0).filter
          (fun a => is_manual_for "3" a) = [newAnn]
      ∧ (add_manual_score
          [{ id := "m0", kind := "manual_score", exercise_code := "3", points := 1 },
           { id := "c0", kind := "score_circle", exercise_code := "3.1", points := 2 },
           { id := "m1", kind := "manual_score", exercise_code := "2", points := 5 }]
          0 7 8 "3" "Exercice 3" 4 "m2" false 0).filter
          (fun a => !is_manual_for "3" a)
        = ([{ id := "m0", kind := "manual_score", exercise_code := "3", points := 1 },
            { id := "c0", kind := "score_circle", exercise_code := "3.1", points := 2 },
            { id := "m1", kind := "manual_score", exercise_code := "2", points := 5 }] :
            List Ann).filter (fun a => !is_manual_for "3" a) :=
  add_manual_score_unique
    [{ id := "m0", kind := "manual_score", exercise_code := "3", points := 1 },
     { id := "c0", kind := "score_circle", exercise_code := "3.1", points := 2 },
     { id := "m1", kind := "manual_score", exercise_code := "2", points := 5 }]
    0 7 8 "3" "Exercice 3" 4 "m2" false 0 rfl

/-! ## C7 -/

/-- C7 counterexample: a simple click arms `start = end = (5, 5)`;
`_on_pdf_release` then stores an arrow whose start equals its end —
`if s and e:` is a None-check, not a degeneracy check — where the
claim requires the zero-length arrow to be discarded. -/
theorem commit_arrow_degenerate_counterexample :
    (commit_arrow [] 0 (some (5, 5)) (some (5, 5)) 5 5 "a1" 3).map
      (fun a => (a.kind, a.arrowStart == a.arrowEnd)) = [("arrow", true)] := by
  rfl

/-- C7 (corrected). The ink commit stores the drawing exactly when at
least two points were recorded (a zero-length ink is discarded); the
arrow commit, however, stores an arrow whenever a draw was started
(`draw_start` is set), including the degenerate `start = end` arrow a
simple click produces — only a missing start suppresses insertion. -/
theorem commit_degeneracy :
    ∀ (anns : List Ann) (page : Int) (pts : List (ℚ × ℚ)) (i : String) (w : ℚ)
      (sp ep : Option (ℚ × ℚ)) (rx ry : ℚ),
      (2 ≤ pts.length → commit_ink anns page pts i w
        = anns ++ [{ id := i, kind := "ink", page := page, ink := pts, width_pt := w }])
      ∧ (pts.length < 2 → commit_ink anns page pts i w = anns)
      ∧ (commit_arrow anns page none ep rx ry i w = anns)
      ∧ (∀ s, commit_arrow anns page (some s) ep rx ry i w
          = anns ++ [{ id := i, kind := "arrow", page := page,
                       arrowStart := [s.1, s.2],
                       arrowEnd := [(ep.getD (rx, ry)).1, (ep.getD (rx, ry)).2],
                       width_pt := w }]) := by
  intro anns page pts i w sp ep rx ry
  refine ⟨?_, ?_, rfl, fun s => rfl⟩
  · intro h
    unfold commit_ink
    rw [if_pos h]
  · intro h
    unfold commit_ink
    rw [if_neg (by omega)]

/-- Witness for the C7 theorem at concrete commits. -/
theorem commit_degeneracy_witness :
    commit_ink [] 2 [(0, 0), (3, 4)] "i1" 3
      = [{ id := "i1", kind := "ink", page := 2, ink := [(0, 0), (3, 4)], width_pt := 3 }]
    ∧ commit_ink [] 2 [(0, 0)] "i1" 3 = [] := by
  constructor
  · exact (commit_degeneracy [] 2 [(0, 0), (3, 4)] "i1" 3 none none 0 0).1 (by decide)
  · exact (commit_degeneracy [] 2 [(0, 0)] "i1" 3 none none 0 0).2.1 (by decide)

/-! ## C9 -/

/-- C9 (confirmed). `scheduleRegenerate` always cancels the pending
timer and arms a fresh one (`max(20, delay)`); a timer that fires
during a pointer interaction does not drop the request but re-arms it
with the shorter 120 ms delay (120 < 140, the default) without running
`c_regenerate`; across any burst of firings that all happen during the
interaction, no regeneration runs and the request stays pending; a
firing once the interaction has ended runs the regeneration. -/
theorem schedule_regenerate_debounce :
    ∀ (st : RegenState) (d : Nat),
      (st.hasDoc = true →
        (schedule_regenerate st d).pending = some (max 20 d)
        ∧ (schedule_regenerate st d).regenCount = st.regenCount)
      ∧ (st.hasDoc = true → st.pending.isSome →
        (timer_fire st true).pending = some 120
        ∧ (timer_fire st true).regenCount = st.regenCount
        ∧ 120 < 140)
      ∧ (∀ bs : List Bool, st.hasDoc = true → (∀ b ∈ bs, b = true) →
        (fire_seq st bs).regenCount = st.regenCount
        ∧ ((fire_seq st bs).pending.isSome ↔ st.pending.isSome))
      ∧ (st.pending.isSome →
        (timer_fire st false).regenCount = st.regenCount + 1
        ∧ (timer_fire st false).pending = none) := by
  intro st d
  refine ⟨?_, ?_, ?_, ?_⟩
  · intro hdoc
    unfold schedule_regenerate
    simp [hdoc]
  · intro hdoc hp
    obtain ⟨p, hpend⟩ := Option.isSome_iff_exists.mp hp
    unfold timer_fire
    rw [hpend]
    unfold schedule_regenerate
    simp [hdoc]
  · intro bs
    induction bs generalizing st with
    | nil => intro _ _; exact ⟨rfl, Iff.rfl⟩
    | cons b rest ih =>
      intro hdoc hall
      have hb : b = true := hall b (List.mem_cons_self b rest)
      subst hb
      have hstep : (timer_fire st true).regenCount = st.regenCount
          ∧ ((timer_fire st true).pending.isSome ↔ st.pending.isSome)
          ∧ (timer_fire st true).hasDoc = st.hasDoc := by
        cases hp : st.pending with
        | none =>
          have heq : timer_fire st true = st := by
            unfold timer_fire
            rw [hp]
          rw [heq]
          exact ⟨rfl, by rw [hp], rfl⟩
        | some p =>
          have heq : timer_fire st true
              = schedule_regenerate { st with pending := none } 120 := by
            unfold timer_fire
            rw [hp]
            rfl
          rw [heq]
          unfold schedule_regenerate
          simp [hdoc, hp]
      have hrest := ih (timer_fire st true) (by rw [hstep.2.2]; exact hdoc)
        (fun x hx => hall x (List.mem_cons_of_mem _ hx))
      refine ⟨?_, ?_⟩
      · show (fire_seq (timer_fire st true) rest).regenCount = st.regenCount
        rw [hrest.1, hstep.1]
      · show (fire_seq (timer_fire st true) rest).pending.isSome ↔ st.pending.isSome
        rw [hrest.2, hstep.2.1]
  · intro hp
    obtain ⟨p, hpend⟩ := Option.isSome_iff_exists.mp hp
    unfold timer_fire
    rw [hpend]
    exact ⟨rfl, rfl⟩

/-- Witness for the C9 theorem at a concrete scheduler state. -/
theorem schedule_regenerate_debounce_witness :
    (schedule_regenerate ⟨some 140, 0, true⟩ 140).pending = some (max 20 140)
    ∧ (timer_fire ⟨some 140, 0, true⟩ true).pending = some 120
    ∧ (fire_seq ⟨some 140, 0, true⟩ [true, true, true]).regenCount = 0
    ∧ (timer_fire ⟨some 120, 0, true⟩ false).regenCount = 0 + 1 := by
  refine ⟨?_, ?_, ?_, ?_⟩
  · exact ((schedule_regenerate_debounce ⟨some 140, 0, true⟩ 140).1 rfl).1
  · exact ((schedule_regenerate_debounce ⟨some 140, 0, true⟩ 140).2.1 rfl rfl).1
  · exact ((schedule_regenerate_debounce ⟨some 140, 0, true⟩ 140).2.2.1
      [true, true, true] rfl (by decide)).1
  · exact ((schedule_regenerate_debounce ⟨some 120, 0, true⟩ 120).2.2.2 rfl).1

/-! ## C3 -/

theorem mem_of_getLast?_eq {α : Type} (l : List α) (a : α)
    (h : l.getLast? = some a) : a ∈ l := by
  obtain ⟨hne, heq⟩ := List.mem_getLast?_eq_getLast (show a ∈ l.getLast? from h)
  rw [heq]
  exact List.getLast_mem hne

/-- C3 (confirmed). On a non-empty layout with non-negative page point
sizes, `_canvas_to_pdf` returns the index of a layout page together
with point coordinates clamped into that page's point rectangle — for
every canvas point, including points outside all pages; and when the
y coordinate lies below every page span (heights non-negative), the
selected page is the last one. -/
theorem canvas_to_pdf_clamps :
    ∀ (layout : List PageInfo) (zoom cx cy : ℚ),
      layout ≠ [] → 0 < zoom →
      (∀ i ∈ layout, 0 ≤ i.w_pt ∧ 0 ≤ i.h_pt) →
      (∃ i ∈ layout,
        (canvas_to_pdf layout zoom cx cy).1 = i.page_index ∧
        0 ≤ (canvas_to_pdf layout zoom cx cy).2.1 ∧
        (canvas_to_pdf layout zoom cx cy).2.1 ≤ i.w_pt ∧
        0 ≤ (canvas_to_pdf layout zoom cx cy).2.2 ∧
        (canvas_to_pdf layout zoom cx cy).2.2 ≤ i.h_pt)
      ∧ ((∀ i ∈ layout, 0 ≤ i.h_px) → (∀ i ∈ layout, i.y0 + i.h_px < cy) →
         ∀ lp, layout.getLast? = some lp →
           (canvas_to_pdf layout zoom cx cy).1 = lp.page_index) := by
  intro layout zoom cx cy hne _hz hbounds
  obtain ⟨lp0, hl⟩ := Option.isSome_iff_exists.mp (List.getLast?_isSome.mpr hne)
  have hcp : canvas_to_pdf layout zoom cx cy
      = ((select_page layout cy lp0).page_index,
         max 0 (min (select_page layout cy lp0).w_pt
           ((max 0 (min (select_page layout cy lp0).w_px
             (cx - (select_page layout cy lp0).x0))) / zoom)),
         max 0 (min (select_page layout cy lp0).h_pt
           ((max 0 (min (select_page layout cy lp0).h_px
             (cy - (select_page layout cy lp0).y0))) / zoom))) := by
    unfold canvas_to_pdf
    rw [hl]
  have hpgmem : select_page layout cy lp0 ∈ layout := by
    unfold select_page
    cases hf : layout.find? (fun i =>
        decide ((i.y0 ≤ cy ∧ cy ≤ i.y0 + i.h_px) ∨ cy < i.y0)) with
    | none => exact mem_of_getLast?_eq layout lp0 hl
    | some i => exact List.mem_of_find?_eq_some hf
  constructor
  · refine ⟨select_page layout cy lp0, hpgmem, ?_, ?_, ?_, ?_, ?_⟩
    · rw [hcp]
    · rw [hcp]
      exact le_max_left 0 _
    · rw [hcp]
      exact max_le (hbounds _ hpgmem).1 (min_le_left _ _)
    · rw [hcp]
      exact le_max_left 0 _
    · rw [hcp]
      exact max_le (hbounds _ hpgmem).2 (min_le_left _ _)
  · intro hpx hbelow lp hlp
    have hlp0 : lp = lp0 := by
      rw [hl] at hlp
      injection hlp.symm
    subst hlp0
    have hfind : layout.find? (fun i =>
        decide ((i.y0 ≤ cy ∧ cy ≤ i.y0 + i.h_px) ∨ cy < i.y0)) = none := by
      rw [List.find?_eq_none]
      intro i hi
      simp only [decide_eq_true_eq]
      push_neg
      constructor
      · intro _
        linarith [hbelow i hi]
      · linarith [hpx i hi, hbelow i hi]
    rw [hcp]
    unfold select_page
    rw [hfind]
    rfl

/-- Witness for the C3 theorem on a one-page layout with the pointer
far below and left of the page. -/
theorem canvas_to_pdf_clamps_witness :
    (∃ i ∈ [(⟨7, 0, 0, 100, 200, 50, 100⟩ : PageInfo)],
      (canvas_to_pdf [⟨7, 0, 0, 100, 200, 50, 100⟩] 2 (-5) 500).1 = i.page_index ∧
      0 ≤ (canvas_to_pdf [⟨7, 0, 0, 100, 200, 50, 100⟩] 2 (-5) 500).2.1 ∧
      (canvas_to_pdf [⟨7, 0, 0, 100, 200, 50, 100⟩] 2 (-5) 500).2.1 ≤ i.w_pt ∧
      0 ≤ (canvas_to_pdf [⟨7, 0, 0, 100, 200, 50, 100⟩] 2 (-5) 500).2.2 ∧
      (canvas_to_pdf [⟨7, 0, 0, 100, 200, 50, 100⟩] 2 (-5) 500).2.2 ≤ i.h_pt)
    ∧ (canvas_to_pdf [⟨7, 0, 0, 100, 200, 50, 100⟩] 2 (-5) 500).1 = 7 := by
  have h := canvas_to_pdf_clamps [⟨7, 0, 0, 100, 200, 50, 100⟩] 2 (-5) 500
    (by decide) (by decide) (by decide)
  refine ⟨h.1, ?_⟩
  exact h.2 (by decide)
    (by intro i hi; rw [List.mem_singleton] at hi; subst hi; norm_num)
    ⟨7, 0, 0, 100, 200, 50, 100⟩ rfl

/-! ## C6 -/

theorem drag_update_id (t orig : Ann) (dx dy : ℚ) (am : Bool) (mx : ℚ) :
    (drag_update t orig dx dy am mx).id = t.id := by
  unfold drag_update
  split_ifs <;> first
    | rfl
    | (rcases orig.rect with _ | ⟨x0, _ | ⟨y0, _ | ⟨x1, _ | ⟨y1, _ | ⟨z, tl⟩⟩⟩⟩⟩ <;> rfl)
    | (rcases orig.arrowStart with _ | ⟨sx, _ | ⟨sy, _ | ⟨s3, stl⟩⟩⟩ <;>
       rcases orig.arrowEnd with _ | ⟨ex, _ | ⟨ey, _ | ⟨e3, etl⟩⟩⟩ <;> rfl)

theorem drag_update_overwrite (t orig : Ann) (dx1 dy1 dx2 dy2 : ℚ)
    (am : Bool) (mx : ℚ) :
    drag_update (drag_update t orig dx1 dy1 am mx) orig dx2 dy2 am mx
      = drag_update t orig dx2 dy2 am mx := by
  unfold drag_update
  split_ifs <;> first
    | rfl
    | (rcases orig.rect with _ | ⟨x0, _ | ⟨y0, _ | ⟨x1, _ | ⟨y1, _ | ⟨z, tl⟩⟩⟩⟩⟩ <;> rfl)
    | (rcases orig.arrowStart with _ | ⟨sx, _ | ⟨sy, _ | ⟨s3, stl⟩⟩⟩ <;>
       rcases orig.arrowEnd with _ | ⟨ex, _ | ⟨ey, _ | ⟨e3, etl⟩⟩⟩ <;> rfl)

theorem update_first_cons (a : Ann) (rest : List Ann) (i : String) (f : Ann → Ann) :
    update_first_by_id (a :: rest) i f
      = if a.id = i then f a :: rest else a :: update_first_by_id rest i f := rfl

theorem update_first_comp (l : List Ann) (i : String) (f g : Ann → Ann)
    (hf : ∀ a, (f a).id = a.id) :
    update_first_by_id (update_first_by_id l i f) i g
      = update_first_by_id l i (fun a => g (f a)) := by
  induction l with
  | nil => rfl
  | cons a rest ih =>
    by_cases ha : a.id = i
    · rw [update_first_cons, if_pos ha, update_first_cons,
        if_pos ((hf a).trans ha), update_first_cons, if_pos ha]
    · rw [update_first_cons, if_neg ha, update_first_cons, if_neg ha,
        update_first_cons, if_neg ha, ih]

theorem find?_update_first (l : List Ann) (i : String) (f : Ann → Ann)
    (hf : ∀ a, (f a).id = a.id) :
    (update_first_by_id l i f).find? (fun a => a.id == i)
      = (l.find? (fun a => a.id == i)).map f := by
  induction l with
  | nil => rfl
  | cons a rest ih =>
    by_cases ha : a.id = i
    · rw [update_first_cons, if_pos ha]
      rw [List.find?_cons_of_pos _ (by simp [hf a, ha])]
      rw [List.find?_cons_of_pos _ (by simp [ha])]
      rfl
    · rw [update_first_cons, if_neg ha]
      rw [List.find?_cons_of_neg _ (by simp [ha])]
      rw [List.find?_cons_of_neg _ (by simp [ha])]
      exact ih

/-- C6 (confirmed). While dragging, each pointer-move recomputes the
target's geometry from the pointer-down snapshot plus the current
delta: dragging to `p1` and then to `p2` leaves the store exactly as
dragging straight to `p2` (no incremental accumulation); with margin
alignment off, the updated geometry equals the spec's
`snapshot.geometry + delta` for every kind's point/rect/segment
fields; and the concrete textbox scenario `[10,10,100,50]` dragged by
`(10,15)` yields `[20,25,110,65]`. -/
theorem drag_recomputes_from_snapshot :
    ∀ (anns : List Ann) (st : MoveState) (am : Bool) (mx : ℚ) (px1 py1 px2 py2 : ℚ),
      (on_pdf_drag_move (on_pdf_drag_move anns st am mx st.page px1 py1)
          st am mx st.page px2 py2
        = on_pdf_drag_move anns st am mx st.page px2 py2)
      ∧ (∀ t, anns.find? (fun a => a.id == st.annId) = some t →
          (on_pdf_drag_move anns st false mx st.page px2 py2).find?
              (fun a => a.id == st.annId)
            = some (drag_update t st.snapshot (px2 - st.anchor.1) (py2 - st.anchor.2)
                false mx))
      ∧ (∀ (t orig : Ann) (dx dy : ℚ),
          ((orig.kind = "score_circle" ∨ orig.kind = "manual_score") →
            (drag_update t orig dx dy false mx).x_pt = (spec_translated orig dx dy).x_pt
            ∧ (drag_update t orig dx dy false mx).y_pt = (spec_translated orig dx dy).y_pt)
          ∧ ((orig.kind = "textbox" ∨ orig.kind = "image") →
            ∀ x0 y0 x1 y1, orig.rect = [x0, y0, x1, y1] →
            (drag_update t orig dx dy false mx).rect = (spec_translated orig dx dy).rect)
          ∧ (orig.kind = "arrow" →
            ∀ sx sy ex ey, orig.arrowStart = [sx, sy] → orig.arrowEnd = [ex, ey] →
            (drag_update t orig dx dy false mx).arrowStart
                = (spec_translated orig dx dy).arrowStart
            ∧ (drag_update t orig dx dy false mx).arrowEnd
                = (spec_translated orig dx dy).arrowEnd)
          ∧ (orig.kind = "ink" → orig.ink ≠ [] →
            (drag_update t orig dx dy false mx).ink = (spec_translated orig dx dy).ink))
      ∧ on_pdf_drag_move
          [{ id := "id1", kind := "textbox", page := 0, rect := [10, 10, 100, 50] }]
          ⟨"id1", (50, 30),
            { id := "id1", kind := "textbox", page := 0, rect := [10, 10, 100, 50] }, 0⟩
          false 0 0 60 45
        = [{ id := "id1", kind := "textbox", page := 0, rect := [20, 25, 110, 65] }] := by
  intro anns st am mx px1 py1 px2 py2
  refine ⟨?_, ?_, ?_, ?_⟩
  · unfold on_pdf_drag_move
    rw [if_neg (fun h => h rfl), if_neg (fun h => h rfl), if_neg (fun h => h rfl)]
    rw [update_first_comp _ _ _ _ (fun a => drag_update_id a st.snapshot _ _ am mx)]
    rw [show (fun a => drag_update
        (drag_update a st.snapshot (px1 - st.anchor.1) (py1 - st.anchor.2) am mx)
        st.snapshot (px2 - st.anchor.1) (py2 - st.anchor.2) am mx)
      = (fun a => drag_update a st.snapshot (px2 - st.anchor.1) (py2 - st.anchor.2) am mx)
      from funext (fun a => drag_update_overwrite a st.snapshot _ _ _ _ am mx)]
  · intro t ht
    unfold on_pdf_drag_move
    rw [if_neg (fun h => h rfl)]
    rw [find?_update_first _ _ _ (fun a => drag_update_id a st.snapshot _ _ false mx)]
    rw [ht]
    rfl
  · intro t orig dx dy
    refine ⟨?_, ?_, ?_, ?_⟩
    · intro h
      unfold drag_update spec_translated
      rw [if_pos h]
      constructor <;> rfl
    · rintro (h | h) x0 y0 x1 y1 hr
      · unfold drag_update spec_translated
        rw [if_neg (by rw [h]; decide), if_pos h, hr]
      · unfold drag_update spec_translated
        rw [if_neg (by rw [h]; decide), if_neg (by rw [h]; decide), if_pos h, hr]
    · intro h sx sy ex ey hs he
      unfold drag_update spec_translated
      rw [if_neg (by rw [h]; decide), if_neg (by rw [h]; decide),
        if_neg (by rw [h]; decide), if_pos h, hs, he]
      exact ⟨rfl, rfl⟩
    · intro h hink
      unfold drag_update spec_translated
      rw [if_neg (by rw [h]; decide), if_neg (by rw [h]; decide),
        if_neg (by rw [h]; decide), if_neg (by rw [h]; decide), if_pos h,
        if_pos hink]
  · simp +decide only [on_pdf_drag_move, update_first_by_id, drag_update]
    norm_num

/-- Witness for the C6 theorem at a concrete one-annotation store. -/
theorem drag_recomputes_from_snapshot_witness :
    (on_pdf_drag_move
        [{ id := "id1", kind := "textbox", page := 0, rect := [10, 10, 100, 50] }]
        ⟨"id1", (50, 30),
          { id := "id1", kind := "textbox", page := 0, rect := [10, 10, 100, 50] }, 0⟩
        false 0 0 60 45).find? (fun a => a.id == "id1")
      = some (drag_update
          { id := "id1", kind := "textbox", page := 0, rect := [10, 10, 100, 50] }
          { id := "id1", kind := "textbox", page := 0, rect := [10, 10, 100, 50] }
          (60 - 50) (45 - 30) false 0) ∧
    (drag_update
        { id := "id1", kind := "textbox", page := 0, rect := [10, 10, 100, 50] }
        { id := "id1", kind := "textbox", page := 0, rect := [10, 10, 100, 50] }
        10 15 false 0).rect
      = (spec_translated
          { id := "id1", kind := "textbox", page := 0, rect := [10, 10, 100, 50] }
          10 15).rect := by
  constructor
  · exact (drag_recomputes_from_snapshot
      [{ id := "id1", kind := "textbox", page := 0, rect := [10, 10, 100, 50] }]
      ⟨"id1", (50, 30),
        { id := "id1", kind := "textbox", page := 0, rect := [10, 10, 100, 50] }, 0⟩
      false 0 0 0 60 45).2.1
      { id := "id1", kind := "textbox", page := 0, rect := [10, 10, 100, 50] } rfl
  · exact ((drag_recomputes_from_snapshot [] ⟨"", (0, 0), {}, 0⟩ false 0 0 0 0 0).2.2.1
      { id := "id1", kind := "textbox", page := 0, rect := [10, 10, 100, 50] }
      { id := "id1", kind := "textbox", page := 0, rect := [10, 10, 100, 50] }
      10 15).2.1 (Or.inl rfl) 10 10 100 50 rfl

/-! ## C5 -/

/-- The rational test of `hit_test_circle` is exactly the source's
float test `hypot(px−ax, py−ay) ≤ r + 10`. -/
theorem hit_test_circle_isSome_iff (ax ay r px py : ℚ) :
    (hit_test_circle ax ay r px py).isSome
      ↔ Real.sqrt (((px - ax) ^ 2 + (py - ay) ^ 2 : ℚ) : ℝ) ≤ (r : ℝ) + 10 := by
  have hD : (0 : ℝ) ≤ (((px - ax) ^ 2 + (py - ay) ^ 2 : ℚ) : ℝ) := by
    push_cast
    positivity
  unfold hit_test_circle
  constructor
  · intro h
    rw [Option.isSome_iff_exists] at h
    obtain ⟨v, hv⟩ := h
    by_cases hc : 0 ≤ r + 10 ∧ (px - ax) ^ 2 + (py - ay) ^ 2 ≤ (r + 10) ^ 2
    · have h2 : (((px - ax) ^ 2 + (py - ay) ^ 2 : ℚ) : ℝ) ≤ ((r : ℝ) + 10) ^ 2 := by
        have := hc.2
        push_cast
        exact_mod_cast this
      have h1 : (0 : ℝ) ≤ (r : ℝ) + 10 := by exact_mod_cast hc.1
      calc Real.sqrt (((px - ax) ^ 2 + (py - ay) ^ 2 : ℚ) : ℝ)
          ≤ Real.sqrt (((r : ℝ) + 10) ^ 2) := Real.sqrt_le_sqrt h2
        _ = (r : ℝ) + 10 := Real.sqrt_sq h1
    · rw [if_neg hc] at hv
      cases hv
  · intro h
    have h1 : (0 : ℝ) ≤ (r : ℝ) + 10 := le_trans (Real.sqrt_nonneg _) h
    have h2 : (((px - ax) ^ 2 + (py - ay) ^ 2 : ℚ) : ℝ) ≤ ((r : ℝ) + 10) ^ 2 := by
      calc (((px - ax) ^ 2 + (py - ay) ^ 2 : ℚ) : ℝ)
          = Real.sqrt (((px - ax) ^ 2 + (py - ay) ^ 2 : ℚ) : ℝ) ^ 2 :=
            (Real.sq_sqrt hD).symm
        _ ≤ ((r : ℝ) + 10) ^ 2 := pow_le_pow_left (Real.sqrt_nonneg _) h 2
    rw [if_pos ⟨by exact_mod_cast h1, by exact_mod_cast h2⟩]
    rfl

/-- C5 (confirmed). For a circle-kind annotation on the pointer's
page: the hit test reports a hit exactly when the Euclidean distance
from pointer to center is at most `radius + 10`; the value it reports
is the squared distance, whose real square root is that Euclidean
distance; scaling the center directly away from the pointer strictly
increases the distance; and once the distance exceeds `radius + 10`
the annotation is no longer reported as a hit. -/
theorem hit_test_circle_euclidean :
    ∀ (a : Ann) (page : Int) (px py : ℚ),
      a.page = page → (a.kind = "score_circle" ∨ a.kind = "manual_score") →
      ((hit_test_ann_circle a page px py).isSome
        ↔ Real.sqrt (((px - a.x_pt) ^ 2 + (py - a.y_pt) ^ 2 : ℚ) : ℝ)
            ≤ (a.radius_pt : ℝ) + 10)
      ∧ (∀ v, hit_test_ann_circle a page px py = some v →
          Real.sqrt ((v : ℚ) : ℝ)
            = Real.sqrt (((px - a.x_pt) ^ 2 + (py - a.y_pt) ^ 2 : ℚ) : ℝ))
      ∧ (∀ t t' : ℚ, 1 ≤ t → t < t' → ¬(a.x_pt = px ∧ a.y_pt = py) →
          Real.sqrt (((px - (px + t * (a.x_pt - px))) ^ 2
              + (py - (py + t * (a.y_pt - py))) ^ 2 : ℚ) : ℝ)
            < Real.sqrt (((px - (px + t' * (a.x_pt - px))) ^ 2
              + (py - (py + t' * (a.y_pt - py))) ^ 2 : ℚ) : ℝ))
      ∧ (∀ t : ℚ, (a.radius_pt : ℝ) + 10
            < Real.sqrt (((px - (px + t * (a.x_pt - px))) ^ 2
              + (py - (py + t * (a.y_pt - py))) ^ 2 : ℚ) : ℝ) →
          hit_test_ann_circle
            { a with x_pt := px + t * (a.x_pt - px), y_pt := py + t * (a.y_pt - py) }
            page px py = none) := by
  intro a page px py hpage hkind
  have hgate : ∀ (ax ay : ℚ),
      hit_test_ann_circle { a with x_pt := ax, y_pt := ay } page px py
        = hit_test_circle ax ay a.radius_pt px py := by
    intro ax ay
    unfold hit_test_ann_circle
    rw [if_neg (by simp [hpage]), if_pos (by simpa using hkind)]
  have hgate0 : hit_test_ann_circle a page px py
      = hit_test_circle a.x_pt a.y_pt a.radius_pt px py := by
    unfold hit_test_ann_circle
    rw [if_neg (by simp [hpage]), if_pos hkind]
  refine ⟨?_, ?_, ?_, ?_⟩
  · rw [hgate0]
    exact hit_test_circle_isSome_iff a.x_pt a.y_pt a.radius_pt px py
  · intro v hv
    rw [hgate0] at hv
    unfold hit_test_circle at hv
    by_cases hc : 0 ≤ a.radius_pt + 10
        ∧ (px - a.x_pt) ^ 2 + (py - a.y_pt) ^ 2 ≤ (a.radius_pt + 10) ^ 2
    · rw [if_pos hc] at hv
      injection hv with hv
      rw [← hv]
    · rw [if_neg hc] at hv
      cases hv
  · intro t t' ht htt hne
    have hsq : ∀ s : ℚ, (px - (px + s * (a.x_pt - px))) ^ 2
        + (py - (py + s * (a.y_pt - py))) ^ 2
        = s ^ 2 * ((px - a.x_pt) ^ 2 + (py - a.y_pt) ^ 2) := by
      intro s
      ring
    have hd0 : 0 < (px - a.x_pt) ^ 2 + (py - a.y_pt) ^ 2 := by
      rcases not_and_or.mp hne with h | h
      · have hx : px - a.x_pt ≠ 0 := sub_ne_zero.mpr (fun hh => h hh.symm)
        exact add_pos_of_pos_of_nonneg (pow_two_pos_of_ne_zero hx) (sq_nonneg _)
      · have hy : py - a.y_pt ≠ 0 := sub_ne_zero.mpr (fun hh => h hh.symm)
        exact add_pos_of_nonneg_of_pos (sq_nonneg _) (pow_two_pos_of_ne_zero hy)
    have hlt : (px - (px + t * (a.x_pt - px))) ^ 2 + (py - (py + t * (a.y_pt - py))) ^ 2
        < (px - (px + t' * (a.x_pt - px))) ^ 2 + (py - (py + t' * (a.y_pt - py))) ^ 2 := by
      rw [hsq t, hsq t']
      have htsq : t ^ 2 < t' ^ 2 := by nlinarith
      exact mul_lt_mul_of_pos_right htsq hd0
    apply Real.sqrt_lt_sqrt
    · push_cast
      positivity
    · exact_mod_cast hlt
  · intro t hfar
    rw [hgate]
    rcases hsome : (hit_test_circle (px + t * (a.x_pt - px)) (py + t * (a.y_pt - py))
        a.radius_pt px py).isSome with hfalse | htrue
    · exact Option.not_isSome_iff_eq_none.mp (by rw [hsome]; exact Bool.false_ne_true)
    · exfalso
      have := (hit_test_circle_isSome_iff
        (px + t * (a.x_pt - px)) (py + t * (a.y_pt - py)) a.radius_pt px py).mp hsome
      exact absurd this (not_le.mpr hfar)

/-- Witness for the C5 theorem at a concrete pastille and pointer. -/
theorem hit_test_circle_euclidean_witness :
    ((hit_test_ann_circle
        { kind := "score_circle", page := 0, x_pt := 3, y_pt := 4, radius_pt := 9 }
        0 0 0).isSome
      ↔ Real.sqrt ((((0 : ℚ) - 3) ^ 2 + ((0 : ℚ) - 4) ^ 2 : ℚ) : ℝ)
          ≤ ((9 : ℚ) : ℝ) + 10)
    ∧ Real.sqrt ((((0 : ℚ) - (0 + 2 * ((3 : ℚ) - 0))) ^ 2
          + ((0 : ℚ) - (0 + 2 * ((4 : ℚ) - 0))) ^ 2 : ℚ) : ℝ)
        < Real.sqrt ((((0 : ℚ) - (0 + 5 * ((3 : ℚ) - 0))) ^ 2
          + ((0 : ℚ) - (0 + 5 * ((4 : ℚ) - 0))) ^ 2 : ℚ) : ℝ) := by
  constructor
  · exact (hit_test_circle_euclidean
      { kind := "score_circle", page := 0, x_pt := 3, y_pt := 4, radius_pt := 9 }
      0 0 0 rfl (Or.inl rfl)).1
  · exact (hit_test_circle_euclidean
      { kind := "score_circle", page := 0, x_pt := 3, y_pt := 4, radius_pt := 9 }
      0 0 0 rfl (Or.inl rfl)).2.2.1 2 5 (by norm_num) (by norm_num)
      (by simp)

end PdfCorr
